import Mathlib

/-!
# XMLX player and Xmlynth synthesis engine

A shallow embedding of `static/js/xmlx_player.js` (class `XMLXPlayer`) and
`static/js/xmlynth.js` (class `Xmlynth`).

Conventions of the embedding.

* The value of a JavaScript number that carries a time (seconds of the audio clock,
  event timestamps, envelope durations) is a rational. The arithmetic of
  `scheduler` and `scheduleEvent` (song time, end of the look-ahead window, trigger
  time, timer delay) rounds every result to binary64 (`jsSub`, `jsAdd`, `jsMul`);
  the song time of `toggleStemMode` and the arithmetic of the synthesis engine are
  exact, rounding is not modelled there.
* `ctx.currentTime` is read once per call; the player's methods take it as the
  argument `now`, the engine keeps it in its state.
* Calls on external collaborators (audio elements, UI hooks, `setTimeout`,
  `console.warn`) are returned as a list of `Effect`s next to the new state.
* A JavaScript object used as a dictionary is a list in insertion order
  (`stems`) or a total function to `Option` (`notePtrs`, `activeVoices`,
  `monoTracker`); `null` and `undefined` are both `none`.
-/

namespace XMLX

/-! ## Data model of the player -/

/-- Kind of a note event, the field `type` of the parsed timeline (`'on'` / `'off'`). -/
inductive EventType where
  | on
  | off
  deriving DecidableEq, Repr

/-- One entry of `midiData`: `{ t, type, n, v }`. -/
structure NoteEvent where
  t : ℚ
  type : EventType
  n : Int
  v : Int
  deriving DecidableEq, Repr

/-- Playback mode of a stem, the field `mode` (`'audio'` / `'midi'`). -/
inductive Mode where
  | audio
  | midi
  deriving DecidableEq, Repr

/-- The `Audio` element created by the loader for a stem, identified by its source. -/
structure AudioElem where
  src : String
  deriving DecidableEq, Repr

/-- A record of `this.stems`. -/
structure Stem where
  name : String
  audioSrc : Option String
  midiSrc : Option String
  mode : Mode
  instId : Int
  audioElem : Option AudioElem
  midiData : Option (List NoteEvent)
  deriving DecidableEq, Repr

/-- Calls the player makes on its collaborators. -/
inductive Effect where
  /-- `this.onTimeUpdate(timeInSong)` -/
  | timeUpdate (timeInSong : ℚ)
  /-- `this.onStemUpdate(this.stems)` -/
  | stemUpdate
  /-- `this.scheduleEvent(s, event, triggerTime)`, recorded at the call -/
  | scheduleEvent (stem : String) (event : NoteEvent) (when : ℚ)
  /-- the one-shot `setTimeout` of `scheduleEvent`, delay in milliseconds -/
  | noteTimeout (stem : String) (event : NoteEvent) (delay : ℚ)
  /-- `setTimeout(() => this.scheduler(), ms)` -/
  | tickTimeout (ms : Nat)
  /-- `clearTimeout(this.timerID)` -/
  | clearTick
  /-- `audioElem.currentTime = pos` -/
  | audioSeek (stem : String) (pos : ℚ)
  /-- `audioElem.play()` -/
  | audioPlay (stem : String)
  /-- `audioElem.pause()` -/
  | audioPause (stem : String)
  /-- `this.ctx.resume()` -/
  | ctxResume
  /-- `console.warn(msg)` -/
  | consoleWarn (msg : String)
  deriving DecidableEq, Repr

/-- The mutable fields of an `XMLXPlayer`. The hooks are kept as flags (`true` when a
callback is installed); `songData`, `lookahead`, `nextNoteTime` are never read by the
methods below and are left out, and the handle stored in `timerID` is represented by the
effects `tickTimeout` / `clearTick`. -/
structure Player where
  isPlaying : Bool
  stems : List Stem
  startTime : ℚ
  notePtrs : String → Option Nat
  onTimeUpdate : Bool
  onStemUpdate : Bool

/-! ## Number arithmetic of the scheduler

The values of JavaScript numbers are rationals; `fl` rounds a rational to the nearest
IEEE 754 binary64 value, ties to even, with 53 significant bits. The exponent range is
not bounded: overflow to `Infinity`, gradual underflow, `NaN` and the sign of zero are not
modelled. -/

/-- Position of the leading bit of `n`: the `k` with `2 ^ k ≤ n < 2 ^ (k + 1)` for
`0 < n ≤ fuel`. -/
def log2Floor : Nat → Nat → Nat
  | 0, _ => 0
  | fuel + 1, n => if n < 2 then 0 else log2Floor fuel (n / 2) + 1

/-- Nearest integer to `x`, ties to the even one. -/
def roundHalfEven (x : ℚ) : Int :=
  let f : Int := ⌊x⌋
  if x - f < 1 / 2 then f
  else if 1 / 2 < x - f then f + 1
  else if f % 2 = 0 then f else f + 1

/-- Exponent `e` of the binade of a non-zero `x`: `2 ^ e ≤ |x| < 2 ^ (e + 1)`. -/
def ilog2 (x : ℚ) : Int :=
  let e : Int :=
    (log2Floor x.num.natAbs x.num.natAbs : Int) - (log2Floor x.den x.den : Int)
  if |x| < (2 : ℚ) ^ e then e - 1 else e

/-- Rounding of a positive `x` to 53 significant bits, nearest, ties to even. -/
def flPos (x : ℚ) : ℚ :=
  let q : ℚ := (2 : ℚ) ^ (ilog2 x - 52)
  (roundHalfEven (x / q) : ℚ) * q

/-- Value of the binary64 number nearest to `x`. -/
def fl (x : ℚ) : ℚ :=
  if 0 < x then flPos x else if x < 0 then -flPos (-x) else 0

/-- The JavaScript sum `a + b` of two numbers. -/
def jsAdd (a b : ℚ) : ℚ := fl (a + b)

/-- The JavaScript difference `a - b` of two numbers. -/
def jsSub (a b : ℚ) : ℚ := fl (a - b)

/-- The JavaScript product `a * b` of two numbers. -/
def jsMul (a b : ℚ) : ℚ := fl (a * b)

/-- `this.scheduleAheadTime = 0.1`: the number literal `0.1`. -/
def scheduleAheadTime : ℚ := fl 0.1

/-- State set up by the constructor. -/
def Player.new : Player :=
  { isPlaying := false, stems := [], startTime := 0, notePtrs := fun _ => none,
    onTimeUpdate := false, onStemUpdate := false }

/-- Lookup `this.stems[name]`. -/
def getStem (stems : List Stem) (name : String) : Option Stem :=
  stems.find? (fun s => s.name = name)

/-- Assignment `this.stems[s.name] = s`: an existing key keeps its position. -/
def setStem : List Stem → Stem → List Stem
  | [], s => [s]
  | x :: xs, s => if x.name = s.name then s :: xs else x :: setStem xs s

/-- Assignment `this.notePtrs[name] = v`. -/
def setPtr (ptrs : String → Option Nat) (name : String) (v : Option Nat) :
    String → Option Nat :=
  fun k => if k = name then v else ptrs k

/-- JavaScript truthiness of an optional string (`undefined` and `''` are falsy). -/
def truthy (s : Option String) : Bool :=
  match s with
  | none => false
  | some x => x ≠ ""

/-! ## `scheduleEvent` and `scheduler` -/

/-- The method `scheduleEvent(stem, event, when)`: the call itself, then the one-shot
timer unless the delay is negative. -/
def scheduleEvent (now : ℚ) (stem : String) (event : NoteEvent) (when : ℚ) : List Effect :=
  let delay := jsMul (jsSub when now) 1000
  if delay < 0 then [Effect.scheduleEvent stem event when]
  else [Effect.scheduleEvent stem event when, Effect.noteTimeout stem event delay]

/-- The `while (ptr < s.midiData.length)` loop of `scheduler` for one stem. The first
argument bounds the number of iterations; `midiData.length - ptr` always suffices since
every iteration that does not leave the loop increments `ptr`. -/
def lookAhead (startTime timeInSong now : ℚ) (stem : String) (midiData : List NoteEvent) :
    Nat → Nat → Nat × List Effect
  | 0, ptr => (ptr, [])
  | fuel + 1, ptr =>
    match midiData[ptr]? with
    | none => (ptr, [])
    | some event =>
      if event.t ≥ timeInSong ∧ event.t < jsAdd timeInSong scheduleAheadTime then
        let triggerTime := jsAdd startTime event.t
        let r := lookAhead startTime timeInSong now stem midiData fuel (ptr + 1)
        (r.1, scheduleEvent now stem event triggerTime ++ r.2)
      else if event.t < timeInSong then
        lookAhead startTime timeInSong now stem midiData fuel (ptr + 1)
      else
        (ptr, [])

/-- The `for (let k in this.stems)` loop of `scheduler`. -/
def schedStems (startTime timeInSong now : ℚ) :
    List Stem → (String → Option Nat) → (String → Option Nat) × List Effect
  | [], ptrs => (ptrs, [])
  | s :: rest, ptrs =>
    match s.mode, s.midiData with
    | Mode.midi, some midiData =>
      match ptrs s.name with
      | none => schedStems startTime timeInSong now rest ptrs
      | some ptr =>
        let r := lookAhead startTime timeInSong now s.name midiData (midiData.length - ptr) ptr
        let q := schedStems startTime timeInSong now rest (setPtr ptrs s.name (some r.1))
        (q.1, r.2 ++ q.2)
    | _, _ => schedStems startTime timeInSong now rest ptrs

/-- The method `scheduler()`, one tick with `ctx.currentTime = now`. -/
def scheduler (p : Player) (now : ℚ) : Player × List Effect :=
  if !p.isPlaying then (p, [])
  else
    let timeInSong := jsSub now p.startTime
    let e1 := if p.onTimeUpdate then [Effect.timeUpdate timeInSong] else []
    let r := schedStems p.startTime timeInSong now p.stems p.notePtrs
    ({ p with notePtrs := r.1 }, e1 ++ r.2 ++ [Effect.tickTimeout 25])

/-! ## Transport and stem operations of the player -/

/-- Error raised by the JavaScript runtime (property access on `undefined`). -/
inductive JsError where
  | typeError
  deriving DecidableEq, Repr

/-- The `while` loop of `syncMidiPointer`; the first argument bounds the iterations. -/
def syncScan (midiData : List NoteEvent) (timeInSong : ℚ) : Nat → Nat → Nat
  | 0, ptr => ptr
  | fuel + 1, ptr =>
    match midiData[ptr]? with
    | none => ptr
    | some event => if event.t < timeInSong then syncScan midiData timeInSong fuel (ptr + 1) else ptr

/-- The method `syncMidiPointer(name, timeInSong)`. Reading `s.midiData` of a missing
stem raises a `TypeError`. -/
def syncMidiPointer (p : Player) (name : String) (timeInSong : ℚ) : Except JsError Player :=
  match getStem p.stems name with
  | none => Except.error JsError.typeError
  | some s =>
    match s.midiData with
    | none => Except.ok p
    | some midiData =>
      let ptr := syncScan midiData timeInSong midiData.length 0
      Except.ok { p with notePtrs := setPtr p.notePtrs name (some ptr) }

/-- The method `play()`; `suspended` is `this.ctx.state === 'suspended'`. -/
def play (p : Player) (now : ℚ) (suspended : Bool) : Player × List Effect :=
  let e0 := if suspended then [Effect.ctxResume] else []
  let ptrs := p.stems.foldl (fun m s => setPtr m s.name (some 0)) p.notePtrs
  let e1 := (p.stems.map (fun s =>
    if s.mode = Mode.audio ∧ s.audioElem.isSome then
      [Effect.audioSeek s.name 0, Effect.audioPlay s.name] else [])).flatten
  let r := scheduler { p with isPlaying := true, startTime := now, notePtrs := ptrs } now
  (r.1, e0 ++ e1 ++ r.2)

/-- The method `pause()`. -/
def pause (p : Player) : Player × List Effect :=
  ({ p with isPlaying := false },
    Effect.clearTick ::
      (p.stems.map (fun s => if s.audioElem.isSome then [Effect.audioPause s.name] else [])).flatten)

/-- The method `toggleStemMode(name)`. -/
def toggleStemMode (p : Player) (now : ℚ) (name : String) :
    Except JsError (Player × List Effect) :=
  match getStem p.stems name with
  | none => Except.ok (p, [])
  | some s =>
    let newMode := if s.mode = Mode.audio then Mode.midi else Mode.audio
    if newMode = Mode.midi ∧ s.midiData.isNone then
      Except.ok (p, [Effect.consoleWarn ("No MIDI data for stem " ++ name)])
    else if newMode = Mode.audio ∧ s.audioElem.isNone then Except.ok (p, [])
    else
      let s1 : Stem := { s with mode := newMode }
      let p1 : Player := { p with stems := setStem p.stems s1 }
      let hook := if p1.onStemUpdate then [Effect.stemUpdate] else []
      if p1.isPlaying then
        if s1.mode = Mode.audio then
          let seekPos := now - p1.startTime
          let e := if s1.audioElem.isSome then
            [Effect.audioSeek name seekPos, Effect.audioPlay name] else []
          Except.ok (p1, e ++ hook)
        else
          let e := if s1.audioElem.isSome then [Effect.audioPause name] else []
          match syncMidiPointer p1 name (now - p1.startTime) with
          | Except.error err => Except.error err
          | Except.ok p2 => Except.ok (p2, e ++ hook)
      else Except.ok (p1, hook)

/-- The method `changeInstrument(name, instId)`. -/
def changeInstrument (p : Player) (name : String) (instId : Int) : Player × List Effect :=
  match getStem p.stems name with
  | none => (p, [])
  | some s =>
    ({ p with stems := setStem p.stems { s with instId := instId } },
      if p.onStemUpdate then [Effect.stemUpdate] else [])

/-! ## The loader -/

/-- What `loadXML` reads for one `<Stem>` node: its `name` attribute, the text of its
first `<Audio>` and `<Midi>` children, and the `events` of the answer of the timeline
service for `midiSrc` (`none` when the request fails or is not `ok`). -/
structure StemNode where
  name : String
  audioSrc : Option String
  midiSrc : Option String
  midiEvents : Option (List NoteEvent)
  deriving DecidableEq, Repr

/-- The method `assignDefaultInstrument(stemName)`. -/
def assignDefaultInstrument (stemName : String) : Int :=
  let k := stemName.toLower
  if k = "piano" then 0
  else if k = "bass" then 6
  else if k = "drums" then 9
  else if k = "vocals" then 2
  else if k = "guitar" then 5
  else if k = "other" then 1
  else 0

/-- The stem record that the body of the `for (let node of stemNodes)` loop of `loadXML`
builds for one node: the record literal, then the audio element when `audioSrc` is truthy,
then the fetched timeline when `midiSrc` is truthy. -/
def newStem (node : StemNode) : Stem :=
  let s0 : Stem :=
    { name := node.name, audioSrc := node.audioSrc, midiSrc := node.midiSrc,
      mode := Mode.audio, instId := assignDefaultInstrument node.name,
      audioElem := none, midiData := none }
  let s1 : Stem :=
    match node.audioSrc with
    | some src => if truthy node.audioSrc then { s0 with audioElem := some ⟨src⟩ } else s0
    | none => s0
  if truthy node.midiSrc then { s1 with midiData := node.midiEvents } else s1

/-- Body of the `for (let node of stemNodes)` loop of `loadXML`. -/
def loadStem (stems : List Stem) (node : StemNode) : List Stem :=
  setStem stems (newStem node)

/-- The method `loadXML(url)` on the path where the descriptor is fetched and parsed into
`nodes`. -/
def loadXML (p : Player) (nodes : List StemNode) : Player × List Effect :=
  ({ p with stems := nodes.foldl loadStem [] },
    if p.onStemUpdate then [Effect.stemUpdate] else [])

/-- Operations on a loaded player. -/
inductive PlayerOp where
  | play (now : ℚ) (suspended : Bool)
  | pause
  | toggleStemMode (now : ℚ) (name : String)
  | changeInstrument (name : String) (instId : Int)
  | tick (now : ℚ)

/-- One operation; `none` when the call raises. -/
def applyPlayerOp (p : Player) : PlayerOp → Option Player
  | PlayerOp.play now suspended => some (play p now suspended).1
  | PlayerOp.pause => some (pause p).1
  | PlayerOp.toggleStemMode now name =>
    match toggleStemMode p now name with
    | Except.ok r => some r.1
    | Except.error _ => none
  | PlayerOp.changeInstrument name instId => some (changeInstrument p name instId).1
  | PlayerOp.tick now => some (scheduler p now).1

/-- A sequence of operations, left to right. -/
def runPlayer (p : Player) : List PlayerOp → Option Player
  | [] => some p
  | op :: ops =>
    match applyPlayerOp p op with
    | none => none
    | some q => runPlayer q ops

/-- Consecutive scheduler ticks at the clock readings `nows`. -/
def ticks (p : Player) : List ℚ → Player
  | [] => p
  | now :: nows => ticks (scheduler p now).1 nows

/-- The `scheduleEvent` calls made for the stem `name`, in order, as (event, trigger time). -/
def callsFor (name : String) (es : List Effect) : List (NoteEvent × ℚ) :=
  es.filterMap (fun e =>
    match e with
    | Effect.scheduleEvent stem event w => if stem = name then some (event, w) else none
    | _ => none)

/-! ## Data model of the synthesis engine -/

/-- The `adsr` field of a patch. -/
structure ADSR where
  a : ℚ
  d : ℚ
  s : ℚ
  r : ℚ
  deriving DecidableEq, Repr

/-- The `filter` field of a patch. -/
structure FilterSpec where
  type : String
  freq : ℚ
  Q : ℚ
  deriving DecidableEq, Repr

/-- The `mod` field of a patch. -/
structure ModSpec where
  type : String
  amount : ℚ
  deriving DecidableEq, Repr

/-- An entry of `this.instruments`. -/
structure Instrument where
  name : String
  poly : Bool
  voiceA : Nat
  voiceB : Nat
  mix : ℚ
  filter : FilterSpec
  mod : ModSpec
  adsr : ADSR
  deriving DecidableEq, Repr

/-- The table `this.instruments` built by the constructor. -/
def instruments : List Instrument :=
  [ { name := "Celestial Keys", poly := true, voiceA := 0, voiceB := 48, mix := 0.6,
      filter := ⟨"lowpass", 2500, 1⟩, mod := ⟨"mix", 0⟩, adsr := ⟨0.01, 0.3, 0.6, 0.5⟩ },
    { name := "Crystal Pad", poly := true, voiceA := 4, voiceB := 9, mix := 0.5,
      filter := ⟨"highpass", 200, 0⟩, mod := ⟨"ring", 0.2⟩, adsr := ⟨0.1, 0.5, 0.4, 1.5⟩ },
    { name := "Dark Choir", poly := true, voiceA := 52, voiceB := 19, mix := 0.7,
      filter := ⟨"lowpass", 800, 2⟩, mod := ⟨"fm", 50⟩, adsr := ⟨0.6, 0.2, 0.8, 1.0⟩ },
    { name := "Retro Brass", poly := true, voiceA := 56, voiceB := 81, mix := 0.5,
      filter := ⟨"lowpass", 1500, 3⟩, mod := ⟨"detune", 15⟩, adsr := ⟨0.05, 0.2, 0.7, 0.2⟩ },
    { name := "Glass Pluck", poly := true, voiceA := 45, voiceB := 14, mix := 0.4,
      filter := ⟨"bandpass", 1200, 5⟩, mod := ⟨"fm", 200⟩, adsr := ⟨0.01, 0.4, 0.0, 0.4⟩ },
    { name := "Acid Lead", poly := false, voiceA := 81, voiceB := 30, mix := 0.8,
      filter := ⟨"lowpass", 600, 15⟩, mod := ⟨"fm", 100⟩, adsr := ⟨0.01, 0.3, 0.4, 0.1⟩ },
    { name := "Funky Bass", poly := false, voiceA := 37, voiceB := 7, mix := 0.5,
      filter := ⟨"lowpass", 800, 4⟩, mod := ⟨"mix", 0⟩, adsr := ⟨0.01, 0.2, 0.5, 0.05⟩ },
    { name := "Flute Solo", poly := false, voiceA := 73, voiceB := 77, mix := 0.5,
      filter := ⟨"lowpass", 3000, 0.5⟩, mod := ⟨"detune", 8⟩, adsr := ⟨0.15, 0.1, 0.9, 0.2⟩ },
    { name := "Grit Lead", poly := false, voiceA := 29, voiceB := 80, mix := 0.6,
      filter := ⟨"highpass", 300, 2⟩, mod := ⟨"fm", 350⟩, adsr := ⟨0.02, 0.1, 0.8, 0.1⟩ },
    { name := "Sub Kick Bass", poly := false, voiceA := 116, voiceB := 39, mix := 0.4,
      filter := ⟨"lowpass", 150, 2⟩, mod := ⟨"fm", 50⟩, adsr := ⟨0.01, 0.2, 0.0, 0.1⟩ } ]

/-- The lookup `this.instruments[instIndex]` for an integer index (`undefined` is `none`). -/
def getInstrument (instIndex : Int) : Option Instrument :=
  if 0 ≤ instIndex then instruments[instIndex.toNat]? else none

/-- A call of the `AudioParam` automation interface. -/
inductive Automation where
  /-- `setValueAtTime(value, time)` -/
  | setValueAtTime (value time : ℚ)
  /-- `linearRampToValueAtTime(value, time)` -/
  | linearRamp (value time : ℚ)
  /-- `exponentialRampToValueAtTime(value, time)` -/
  | exponentialRamp (value time : ℚ)
  /-- `setValueAtTime(param.value, time)`: pins the value the parameter has at `time` -/
  | holdAtTime (time : ℚ)
  deriving DecidableEq, Repr

/-- Time of an automation event. -/
def Automation.time : Automation → ℚ
  | Automation.setValueAtTime _ t => t
  | Automation.linearRamp _ t => t
  | Automation.exponentialRamp _ t => t
  | Automation.holdAtTime t => t

/-- The call `cancelScheduledValues(t)`: events at or after `t` are dropped. -/
def cancelScheduledValues (events : List Automation) (t : ℚ) : List Automation :=
  events.filter (fun e => e.time < t)

/-- A `voiceObj`. The node graph is kept as what the engine later acts on: the pitch of the
two oscillators (the note `n` stands for the frequency `440 * 2^((n - 69) / 12)`), the
automation of the filter cutoff and of the envelope gain, and the stop time given to the
oscillators (`none` until `releaseVoice` calls `node.stop`). -/
structure Voice where
  inst : Instrument
  startTime : ℚ
  note : Int
  filterFreq : List Automation
  envGain : List Automation
  stopAt : Option ℚ
  deriving DecidableEq, Repr

/-- The key of `activeVoices`, the string made of `instIndex`, a dash and `note`. For integer
arguments the pair determines the string, and for a known instrument (one digit) the
string determines the pair. -/
structure VoiceId where
  instIndex : Int
  note : Int
  deriving DecidableEq, Repr

/-- A pending `setTimeout` of `releaseVoice`: at `due` it deletes `activeVoices[id]`. -/
structure Timer where
  due : ℚ
  id : VoiceId
  deriving DecidableEq, Repr

/-- State of an `Xmlynth`. `voices` holds every `voiceObj` created so far, in order of
creation; a position in it is the identity of the object, and `activeVoices` maps a key
to such a reference. `timers` are the registry timers not yet fired; the timer clock and
`ctx.currentTime` are taken to run together. -/
structure Xmlynth where
  currentTime : ℚ
  voices : List Voice
  activeVoices : VoiceId → Option Nat
  monoTracker : Int → Option VoiceId
  timers : List Timer

/-- State set up by the constructor. -/
def Xmlynth.new : Xmlynth :=
  { currentTime := 0, voices := [], activeVoices := fun _ => none,
    monoTracker := fun _ => none, timers := [] }

/-- Assignment `this.activeVoices[id] = v` (`delete` is the assignment of `none`). -/
def setVoice (reg : VoiceId → Option Nat) (id : VoiceId) (v : Option Nat) :
    VoiceId → Option Nat :=
  fun k => if k = id then v else reg k

/-- Assignment `this.monoTracker[instIndex] = v`. -/
def setTracker (tr : Int → Option VoiceId) (instIndex : Int) (v : Option VoiceId) :
    Int → Option VoiceId :=
  fun k => if k = instIndex then v else tr k

/-! ## Methods of the synthesis engine -/

/-- The method `releaseVoice(id)`. -/
def releaseVoice (s : Xmlynth) (id : VoiceId) : Xmlynth :=
  match s.activeVoices id with
  | none => s
  | some ref =>
    match s.voices[ref]? with
    | none => s
    | some v =>
      let now := s.currentTime
      let releaseTime := v.inst.adsr.r
      let env := cancelScheduledValues v.envGain now ++
        [Automation.holdAtTime now, Automation.exponentialRamp 0.001 (now + releaseTime)]
      let v1 : Voice := { v with envGain := env, stopAt := some (now + releaseTime + 0.1) }
      { s with voices := s.voices.set ref v1,
               timers := s.timers ++ [⟨now + (releaseTime + 0.2), id⟩] }

/-- The method `stopVoice(id)`. -/
def stopVoice (s : Xmlynth) (id : VoiceId) : Xmlynth :=
  if (s.activeVoices id).isSome then releaseVoice s id else s

/-- The method `noteOff(instIndex, note)`. Reading `inst.poly` of a missing patch raises a
`TypeError`. -/
def noteOff (s : Xmlynth) (instIndex note : Int) : Except JsError Xmlynth :=
  match getInstrument instIndex with
  | none => Except.error JsError.typeError
  | some inst =>
    if !inst.poly then
      let s1 : Xmlynth := { s with monoTracker := setTracker s.monoTracker instIndex none }
      match s.monoTracker instIndex with
      | none => Except.ok s1
      | some voiceId =>
        if (s1.activeVoices voiceId).isSome then Except.ok (releaseVoice s1 voiceId)
        else Except.ok s1
    else
      let voiceId : VoiceId := ⟨instIndex, note⟩
      if (s.activeVoices voiceId).isSome then Except.ok (releaseVoice s voiceId)
      else Except.ok s

/-- The block "Monophonic Logic" of `noteOn`: for a patch that is not polyphonic, the voice
tracked for the instrument is stopped. -/
def monoSteal (s : Xmlynth) (instIndex : Int) (inst : Instrument) : Xmlynth :=
  if !inst.poly then
    match s.monoTracker instIndex with
    | some id => stopVoice s id
    | none => s
  else s

/-- Steps 1 to 6 of `noteOn` ("Audio graph construction" up to "Start Oscillators"): the
`voiceObj` for a note started at `now`, with the filter sweep and the amplitude envelope as
scheduled there. -/
def buildVoice (inst : Instrument) (now : ℚ) (note velocity : Int) : Voice :=
  let velGain : ℚ := velocity / 127
  { inst := inst, startTime := now, note := note,
    filterFreq :=
      [Automation.setValueAtTime inst.filter.freq now,
       Automation.exponentialRamp (inst.filter.freq * 1.5) (now + inst.adsr.a),
       Automation.exponentialRamp inst.filter.freq (now + inst.adsr.d)],
    envGain :=
      [Automation.setValueAtTime 0 now,
       Automation.linearRamp velGain (now + inst.adsr.a),
       Automation.exponentialRamp (velGain * inst.adsr.s + 0.01)
         (now + inst.adsr.a + inst.adsr.d)],
    stopAt := none }

/-- Step 7 of `noteOn` ("Store Voice"): the voice goes into the registry under its key and,
for a patch that is not polyphonic, the key goes into the tracker. -/
def storeVoice (s : Xmlynth) (instIndex note : Int) (inst : Instrument) (voiceObj : Voice) :
    Xmlynth :=
  let voiceId : VoiceId := ⟨instIndex, note⟩
  let s2 : Xmlynth :=
    { s with voices := s.voices ++ [voiceObj],
             activeVoices := setVoice s.activeVoices voiceId (some s.voices.length) }
  if !inst.poly then
    { s2 with monoTracker := setTracker s2.monoTracker instIndex (some voiceId) }
  else s2

/-- The method `noteOn(instIndex, note, velocity)`. -/
def noteOn (s : Xmlynth) (instIndex note velocity : Int) : Except JsError Xmlynth :=
  if velocity = 0 then noteOff s instIndex note
  else
    match getInstrument instIndex with
    | none => Except.ok s
    | some inst =>
      let s1 : Xmlynth := monoSteal s instIndex inst
      let now := s1.currentTime
      Except.ok (storeVoice s1 instIndex note inst (buildVoice inst now note velocity))

/-! ## Timers and traces of the engine -/

/-- The callback of the `k`-th pending registry timer runs: `delete this.activeVoices[id]`. -/
def fireTimer (s : Xmlynth) (k : Nat) : Xmlynth :=
  match s.timers[k]? with
  | none => s
  | some tm =>
    { s with activeVoices := setVoice s.activeVoices tm.id none, timers := s.timers.eraseIdx k }

/-- Registry after the callbacks of all timers due at `t` have run. -/
def fireDue (t : ℚ) : List Timer → (VoiceId → Option Nat) → (VoiceId → Option Nat)
  | [], reg => reg
  | tm :: rest, reg =>
    if tm.due ≤ t then fireDue t rest (setVoice reg tm.id none) else fireDue t rest reg

/-- The clock reaches `t` and every timer due by then fires on time. -/
def advanceTo (s : Xmlynth) (t : ℚ) : Xmlynth :=
  { s with currentTime := t, activeVoices := fireDue t s.timers s.activeVoices,
           timers := s.timers.filter (fun tm => !decide (tm.due ≤ t)) }

/-- Events of the engine: the two entry points, the clock moving forward without any timer
firing, and the callback of a pending timer, which may run at its due time or later. -/
inductive SynthOp where
  | noteOn (instIndex note velocity : Int)
  | noteOff (instIndex note : Int)
  | clock (t : ℚ)
  | fire (k : Nat)
  deriving DecidableEq, Repr

/-- One event; `none` when the call raises or the event cannot happen in this state (the
clock running backwards, a timer that is not pending or not yet due). -/
def applySynthOp (s : Xmlynth) : SynthOp → Option Xmlynth
  | SynthOp.noteOn i n v =>
    match noteOn s i n v with
    | Except.ok s1 => some s1
    | Except.error _ => none
  | SynthOp.noteOff i n =>
    match noteOff s i n with
    | Except.ok s1 => some s1
    | Except.error _ => none
  | SynthOp.clock t => if s.currentTime ≤ t then some { s with currentTime := t } else none
  | SynthOp.fire k =>
    match s.timers[k]? with
    | none => none
    | some tm => if tm.due ≤ s.currentTime then some (fireTimer s k) else none

/-- A sequence of events, left to right. -/
def runSynth (s : Xmlynth) : List SynthOp → Option Xmlynth
  | [] => some s
  | op :: ops =>
    match applySynthOp s op with
    | none => none
    | some s1 => runSynth s1 ops

/-- Whether the voice with reference `ref` has been put into release. -/
def released (s : Xmlynth) (ref : Nat) : Bool :=
  match s.voices[ref]? with
  | none => false
  | some v => v.stopAt.isSome

/-! ## Auxiliary definitions for the statements -/

/-- The look-ahead loop on the part of the timeline that is still ahead of the cursor:
number of events consumed and calls made. -/
def scanAhead (startTime timeInSong now : ℚ) (stem : String) : List NoteEvent → Nat × List Effect
  | [] => (0, [])
  | event :: rest =>
    if event.t ≥ timeInSong ∧ event.t < jsAdd timeInSong scheduleAheadTime then
      let r := scanAhead startTime timeInSong now stem rest
      (r.1 + 1, scheduleEvent now stem event (jsAdd startTime event.t) ++ r.2)
    else if event.t < timeInSong then
      let r := scanAhead startTime timeInSong now stem rest
      (r.1 + 1, r.2)
    else (0, [])

/-- Player of the scenario: playing since clock time 0, one synthesized stem with the
timeline `[{t:0.05,on,60,100},{t:0.40,off,60}]`, cursor 0. -/
def scenarioPlayer : Player :=
  { isPlaying := true,
    stems := [{ name := "lead", audioSrc := none, midiSrc := some "lead.mid", mode := Mode.midi,
                instId := 0, audioElem := none,
                midiData := some [⟨0.05, EventType.on, 60, 100⟩, ⟨0.40, EventType.off, 60, 0⟩] }],
    startTime := 0, notePtrs := fun _ => some 0, onTimeUpdate := false, onStemUpdate := false }

/-- The re-trigger trace: a note on the polyphonic instrument 0 is played and released, the
same key is played again during the release tail, and the clock reaches the due time of
the first voice's removal timer. -/
def retriggerTrace : List SynthOp :=
  [SynthOp.noteOn 0 60 100, SynthOp.clock 1, SynthOp.noteOff 0 60, SynthOp.clock 1.1,
   SynthOp.noteOn 0 60 100, SynthOp.clock 1.7]

/-- A playing transport (clock origin 0) with four stems: `lead` in prerecorded mode with
both sources, `bass` in synthesized mode with both sources, `pad` in prerecorded mode with
no timeline, `keys` in synthesized mode with no audio handle. -/
def togglePlayer : Player :=
  { isPlaying := true,
    stems :=
      [{ name := "lead", audioSrc := some "lead.ogg", midiSrc := some "lead.mid",
         mode := Mode.audio, instId := 0, audioElem := some ⟨"lead.ogg"⟩,
         midiData := some [⟨0.05, EventType.on, 60, 100⟩, ⟨0.40, EventType.off, 60, 0⟩] },
       { name := "bass", audioSrc := some "bass.ogg", midiSrc := some "bass.mid",
         mode := Mode.midi, instId := 6, audioElem := some ⟨"bass.ogg"⟩,
         midiData := some [⟨0.10, EventType.on, 36, 90⟩] },
       { name := "pad", audioSrc := some "pad.ogg", midiSrc := none,
         mode := Mode.audio, instId := 1, audioElem := some ⟨"pad.ogg"⟩, midiData := none },
       { name := "keys", audioSrc := none, midiSrc := some "keys.mid",
         mode := Mode.midi, instId := 0, audioElem := none,
         midiData := some [⟨0.30, EventType.on, 72, 80⟩] }],
    startTime := 0, notePtrs := fun _ => some 0, onTimeUpdate := false, onStemUpdate := false }

/-- A `<Stem>` node with a timeline source and no `<Audio>` child, its timeline fetched. -/
def midiOnlyNode : StemNode :=
  { name := "bass", audioSrc := none, midiSrc := some "bass.mid",
    midiEvents := some [⟨0.10, EventType.on, 36, 90⟩, ⟨0.60, EventType.off, 36, 0⟩] }

/-- A `<Stem>` node with both sources, its timeline fetched. -/
def fullNode : StemNode :=
  { name := "lead", audioSrc := some "lead.ogg", midiSrc := some "lead.mid",
    midiEvents := some [⟨0.05, EventType.on, 60, 100⟩, ⟨0.40, EventType.off, 60, 0⟩] }

/-- Whether `instIndex` names a patch that is not polyphonic (indices 5..9). -/
def isMono (instIndex : Int) : Bool :=
  match getInstrument instIndex with
  | some inst => !inst.poly
  | none => false

/-- The voice-stealing trace of the scenario: two notes on the monophonic instrument 5 with
no `noteOff` in between. -/
def stealTrace : List SynthOp :=
  [SynthOp.noteOn 5 60 100, SynthOp.clock 0.25, SynthOp.noteOn 5 64 100]

/-- The trace of a stale removal timer on the monophonic instrument 5: the key 5-60 is
played at 0 and again at 0.1, which steals the first voice and sets its removal timer; the
clock reaches the due time of that timer and its callback runs; then the key 5-64 is
played, with no `noteOff` anywhere. -/
def staleTimerTrace : List SynthOp :=
  [SynthOp.noteOn 5 60 100, SynthOp.clock 0.1, SynthOp.noteOn 5 60 100, SynthOp.clock 0.4,
   SynthOp.fire 0, SynthOp.noteOn 5 64 100]

/-- Invariant of the engine state: every reference held by the registry is a voice that
was created, and a voice of a monophonic instrument that is in the registry and not yet
in release is the one under the key that the tracker of its instrument holds. -/
def RegistryOk (s : Xmlynth) : Prop :=
  (∀ id ref, s.activeVoices id = some ref → ref < s.voices.length) ∧
  (∀ id ref, s.activeVoices id = some ref → isMono id.instIndex = true →
    released s ref = false → s.monoTracker id.instIndex = some id)

/-- Effects of consecutive scheduler ticks at the clock readings `nows`, tick after tick. -/
def ticksEffects (p : Player) : List ℚ → List Effect
  | [] => []
  | now :: nows => (scheduler p now).2 ++ ticksEffects (scheduler p now).1 nows

/-- The timeline `[{t:0.05,on,60,100},{t:0.40,off,60}]` with the timestamps as the numbers
the literals `0.05` and `0.40` denote. -/
def scenarioTimeline : List NoteEvent :=
  [⟨fl 0.05, EventType.on, 60, 100⟩, ⟨fl 0.40, EventType.off, 60, 0⟩]

/-- Player of the scenario with the timeline `scenarioTimeline`: playing since clock time 0,
one synthesized stem, cursor 0. -/
def windowPlayer : Player :=
  { isPlaying := true,
    stems := [{ name := "lead", audioSrc := none, midiSrc := some "lead.mid", mode := Mode.midi,
                instId := 0, audioElem := none, midiData := some scenarioTimeline }],
    startTime := 0, notePtrs := fun _ => some 0, onTimeUpdate := false, onStemUpdate := false }

/-- A playing player with clock origin 0 and one synthesized stem whose only event has the
timestamp `9.1`, cursor 0. -/
def boundaryPlayer : Player :=
  { isPlaying := true,
    stems := [{ name := "lead", audioSrc := none, midiSrc := some "lead.mid", mode := Mode.midi,
                instId := 0, audioElem := none,
                midiData := some [⟨fl 9.1, EventType.on, 60, 100⟩] }],
    startTime := 0, notePtrs := fun _ => some 0, onTimeUpdate := false, onStemUpdate := false }

/-- A playing player whose clock origin is the number `1 + 2^-50`, with one synthesized
stem whose only event has the timestamp `9.1`, cursor 0. -/
def lostNotePlayer : Player :=
  { isPlaying := true,
    stems := [{ name := "lead", audioSrc := none, midiSrc := some "lead.mid", mode := Mode.midi,
                instId := 0, audioElem := none,
                midiData := some [⟨fl 9.1, EventType.on, 60, 100⟩] }],
    startTime := 1 + 1 / 2 ^ 50, notePtrs := fun _ => some 0, onTimeUpdate := false,
    onStemUpdate := false }

/-- A stopped player with one synthesized stem, the timeline `scenarioTimeline`, and a
stale cursor. -/
def stoppedPlayer : Player :=
  { isPlaying := false,
    stems := [{ name := "lead", audioSrc := none, midiSrc := some "lead.mid", mode := Mode.midi,
                instId := 0, audioElem := none, midiData := some scenarioTimeline }],
    startTime := 0, notePtrs := fun _ => some 7, onTimeUpdate := false, onStemUpdate := false }

/-- The state in which `play()` at clock time 0 on `stoppedPlayer` makes its first call of
`scheduler`: playing, clock origin 0, every cursor reset to 0. -/
def startedPlayer : Player :=
  let ptrs := stoppedPlayer.stems.foldl (fun m s => setPtr m s.name (some 0)) stoppedPlayer.notePtrs
  { stoppedPlayer with isPlaying := true, startTime := 0, notePtrs := ptrs }

end XMLX

namespace XMLX

/-! ## Rounding to binary64 -/

theorem roundHalfEven_cases (x : ℚ) :
    roundHalfEven x = ⌊x⌋ ∨ roundHalfEven x = ⌊x⌋ + 1 := by
  unfold roundHalfEven
  simp only
  split_ifs <;> simp

theorem roundHalfEven_intCast (n : Int) : roundHalfEven (n : ℚ) = n := by
  unfold roundHalfEven
  simp

theorem roundHalfEven_mono (x y : ℚ) (h : x ≤ y) : roundHalfEven x ≤ roundHalfEven y := by
  have hf : ⌊x⌋ ≤ ⌊y⌋ := Int.floor_mono h
  rcases lt_or_eq_of_le hf with hlt | heq
  · rcases roundHalfEven_cases x with h1 | h1 <;> rcases roundHalfEven_cases y with h2 | h2 <;>
      omega
  · unfold roundHalfEven
    simp only
    rw [← heq]
    have hxy : x - (⌊x⌋ : ℚ) ≤ y - (⌊x⌋ : ℚ) := by linarith
    split_ifs <;> first | omega | (exfalso; linarith)

theorem roundHalfEven_eq_of_near (x : ℚ) (n : Int) (h : |x - n| < 1 / 2) :
    roundHalfEven x = n := by
  have h1 := abs_lt.mp h
  have hlo : (n : ℚ) - 1 / 2 < x := by linarith [h1.1]
  have hhi : x < (n : ℚ) + 1 / 2 := by linarith [h1.2]
  have hfl := Int.floor_le x
  have hfl2 := Int.lt_floor_add_one x
  have hcase : ⌊x⌋ = n ∨ ⌊x⌋ = n - 1 := by
    have a1 : ((⌊x⌋ : Int) : ℚ) < (n : ℚ) + 1 := by linarith
    have a2 : (n : ℚ) - 2 < ((⌊x⌋ : Int) : ℚ) := by linarith
    have b1 : ⌊x⌋ < n + 1 := by exact_mod_cast a1
    have b2 : n - 2 < ⌊x⌋ := by exact_mod_cast a2
    omega
  unfold roundHalfEven
  simp only
  rcases hcase with hc | hc
  · rw [hc]
    have : x - (n : ℚ) < 1 / 2 := by linarith
    simp only [this, if_true]
  · rw [hc]
    have e1 : ((n - 1 : Int) : ℚ) = (n : ℚ) - 1 := by push_cast; ring
    have n1 : ¬ (x - ((n - 1 : Int) : ℚ) < 1 / 2) := by rw [e1]; intro hh; linarith
    have n2 : 1 / 2 < x - ((n - 1 : Int) : ℚ) := by rw [e1]; linarith
    simp only [n1, n2, if_false, if_true]
    omega

theorem roundHalfEven_tie (n : Int) :
    roundHalfEven ((n : ℚ) + 1 / 2) = if n % 2 = 0 then n else n + 1 := by
  have hf : ⌊(n : ℚ) + 1 / 2⌋ = n := by
    rw [Int.floor_eq_iff]
    constructor <;> linarith
  unfold roundHalfEven
  simp only
  rw [hf]
  have n1 : ¬ ((n : ℚ) + 1 / 2 - (n : ℚ) < 1 / 2) := by intro h; linarith
  have n2 : ¬ (1 / 2 < (n : ℚ) + 1 / 2 - (n : ℚ)) := by intro h; linarith
  simp only [n1, n2, if_false]


theorem log2Floor_spec (fuel : Nat) :
    ∀ (n : Nat), n ≠ 0 → n ≤ fuel →
      2 ^ log2Floor fuel n ≤ n ∧ n < 2 ^ (log2Floor fuel n + 1) := by
  induction fuel with
  | zero => intro n h0 h; omega
  | succ fuel ih =>
    intro n h0 h
    unfold log2Floor
    split_ifs with h2
    · have : n = 1 := by omega
      subst this
      simp
    · obtain ⟨i1, i2⟩ := ih (n / 2) (by omega) (by omega)
      rw [pow_succ] at i2 ⊢
      constructor
      · omega
      · rw [pow_succ]
        omega

theorem two_zpow_pos (e : Int) : (0 : ℚ) < (2 : ℚ) ^ e := zpow_pos (by norm_num) e

theorem two_zpow_lt_iff (m n : Int) : (2 : ℚ) ^ m < (2 : ℚ) ^ n ↔ m < n :=
  zpow_lt_zpow_iff_right₀ (by norm_num)

theorem two_zpow_le_iff (m n : Int) : (2 : ℚ) ^ m ≤ (2 : ℚ) ^ n ↔ m ≤ n :=
  zpow_le_zpow_iff_right₀ (by norm_num)

theorem ratio_bounds (N D A B : ℚ) (hA : 0 < A) (hB : 0 < B) (a1 : A ≤ N) (a2 : N < A * 2)
    (b1 : B ≤ D) (b2 : D < B * 2) : A / B * 2⁻¹ ≤ N / D ∧ N / D < A / B * 2 := by
  have hD : 0 < D := lt_of_lt_of_le hB b1
  have hN : 0 < N := lt_of_lt_of_le hA a1
  constructor
  · rw [le_div_iff₀ hD, div_mul_eq_mul_div, div_mul_eq_mul_div, div_le_iff₀ hB]
    have : A * 2⁻¹ * D ≤ A * 2⁻¹ * (B * 2) :=
      mul_le_mul_of_nonneg_left (le_of_lt b2) (by positivity)
    have e : A * 2⁻¹ * (B * 2) = A * B := by field_simp; ring
    nlinarith
  · rw [div_lt_iff₀ hD, div_mul_eq_mul_div, div_mul_eq_mul_div, lt_div_iff₀ hB]
    have : A * 2 * B ≤ A * 2 * D := mul_le_mul_of_nonneg_left b1 (by positivity)
    nlinarith

theorem ilog2_spec (x : ℚ) (hx : 0 < x) :
    (2 : ℚ) ^ ilog2 x ≤ x ∧ x < (2 : ℚ) ^ (ilog2 x + 1) := by
  have hnum : 0 < x.num := Rat.num_pos.mpr hx
  have hn0 : x.num.natAbs ≠ 0 := by omega
  have hd0 : x.den ≠ 0 := x.den_nz
  have hcast : ((x.num.natAbs : ℕ) : ℚ) = (x.num : ℚ) := by
    have h1 : ((x.num.natAbs : ℕ) : ℤ) = x.num := Int.natAbs_of_nonneg (le_of_lt hnum)
    calc ((x.num.natAbs : ℕ) : ℚ) = (((x.num.natAbs : ℕ) : ℤ) : ℚ) := (Int.cast_natCast _).symm
      _ = (x.num : ℚ) := by rw [h1]
  have hxe : ((x.num.natAbs : ℕ) : ℚ) / ((x.den : ℕ) : ℚ) = x := by
    rw [hcast]; exact Rat.num_div_den x
  obtain ⟨n1, n2⟩ := log2Floor_spec x.num.natAbs x.num.natAbs hn0 (le_refl _)
  obtain ⟨d1, d2⟩ := log2Floor_spec x.den x.den hd0 (le_refl _)
  have a1 : ((2 : ℚ) ^ (log2Floor x.num.natAbs x.num.natAbs)) ≤ ((x.num.natAbs : ℕ) : ℚ) := by
    exact_mod_cast n1
  have a2 : ((x.num.natAbs : ℕ) : ℚ) < (2 : ℚ) ^ (log2Floor x.num.natAbs x.num.natAbs) * 2 := by
    rw [← pow_succ]
    exact_mod_cast n2
  have b1 : ((2 : ℚ) ^ (log2Floor x.den x.den)) ≤ ((x.den : ℕ) : ℚ) := by
    exact_mod_cast d1
  have b2 : ((x.den : ℕ) : ℚ) < (2 : ℚ) ^ (log2Floor x.den x.den) * 2 := by
    rw [← pow_succ]
    exact_mod_cast d2
  have pa : (0 : ℚ) < (2 : ℚ) ^ (log2Floor x.num.natAbs x.num.natAbs) := by positivity
  have pb : (0 : ℚ) < (2 : ℚ) ^ (log2Floor x.den x.den) := by positivity
  have hb := ratio_bounds _ _ _ _ pa pb a1 a2 b1 b2
  rw [hxe] at hb
  have he0 : (2 : ℚ) ^ ((log2Floor x.num.natAbs x.num.natAbs : Int) - (log2Floor x.den x.den : Int)) =
      (2 : ℚ) ^ (log2Floor x.num.natAbs x.num.natAbs) / (2 : ℚ) ^ (log2Floor x.den x.den) := by
    rw [zpow_sub₀ (by norm_num : (2 : ℚ) ≠ 0), zpow_natCast, zpow_natCast]
  have hup : x < (2 : ℚ) ^ ((log2Floor x.num.natAbs x.num.natAbs : Int) - (log2Floor x.den x.den : Int) + 1) := by
    rw [zpow_add_one₀ (by norm_num : (2 : ℚ) ≠ 0), he0]
    exact hb.2
  have hlo : (2 : ℚ) ^ ((log2Floor x.num.natAbs x.num.natAbs : Int) - (log2Floor x.den x.den : Int) - 1) ≤ x := by
    rw [zpow_sub_one₀ (by norm_num : (2 : ℚ) ≠ 0), he0]
    exact hb.1
  unfold ilog2
  simp only
  rw [abs_of_pos hx]
  split_ifs with hc
  · refine ⟨hlo, ?_⟩
    rw [sub_add_cancel]
    exact hc
  · exact ⟨not_lt.mp hc, hup⟩

theorem ilog2_eq_of_bounds (x : ℚ) (e : Int) (h1 : (2 : ℚ) ^ e ≤ x)
    (h2 : x < (2 : ℚ) ^ (e + 1)) : ilog2 x = e := by
  have hx : 0 < x := lt_of_lt_of_le (two_zpow_pos e) h1
  obtain ⟨s1, s2⟩ := ilog2_spec x hx
  have a : ilog2 x < e + 1 := (two_zpow_lt_iff _ _).mp (lt_of_le_of_lt s1 h2)
  have b : e < ilog2 x + 1 := (two_zpow_lt_iff _ _).mp (lt_of_le_of_lt h1 s2)
  omega

theorem ilog2_mono (x y : ℚ) (hx : 0 < x) (h : x ≤ y) : ilog2 x ≤ ilog2 y := by
  obtain ⟨s1, _⟩ := ilog2_spec x hx
  obtain ⟨_, t2⟩ := ilog2_spec y (lt_of_lt_of_le hx h)
  have : ilog2 x < ilog2 y + 1 :=
    (two_zpow_lt_iff _ _).mp (lt_of_le_of_lt (le_trans s1 h) t2)
  omega


theorem quantum_mul_52 (e : Int) :
    (((2 : Int) ^ 52 : Int) : ℚ) * (2 : ℚ) ^ (e - 52) = (2 : ℚ) ^ e := by
  have h : (((2 : Int) ^ 52 : Int) : ℚ) = (2 : ℚ) ^ (52 : Int) := by norm_num
  rw [h, ← zpow_add₀ (by norm_num : (2 : ℚ) ≠ 0)]
  congr 1
  ring

theorem quantum_mul_53 (e : Int) :
    (((2 : Int) ^ 53 : Int) : ℚ) * (2 : ℚ) ^ (e - 52) = (2 : ℚ) ^ (e + 1) := by
  have h : (((2 : Int) ^ 53 : Int) : ℚ) = (2 : ℚ) ^ (53 : Int) := by norm_num
  rw [h, ← zpow_add₀ (by norm_num : (2 : ℚ) ≠ 0)]
  congr 1
  ring

/-- The rounded significand of a positive number lies between `2 ^ 52` and `2 ^ 53`. -/
theorem significand_bounds (x : ℚ) (hx : 0 < x) :
    (2 : Int) ^ 52 ≤ roundHalfEven (x / (2 : ℚ) ^ (ilog2 x - 52)) ∧
      roundHalfEven (x / (2 : ℚ) ^ (ilog2 x - 52)) ≤ (2 : Int) ^ 53 := by
  obtain ⟨s1, s2⟩ := ilog2_spec x hx
  have hq := two_zpow_pos (ilog2 x - 52)
  constructor
  · have : (((2 : Int) ^ 52 : Int) : ℚ) ≤ x / (2 : ℚ) ^ (ilog2 x - 52) := by
      rw [le_div_iff₀ hq, quantum_mul_52]
      exact s1
    have := roundHalfEven_mono _ _ this
    rwa [roundHalfEven_intCast] at this
  · have : x / (2 : ℚ) ^ (ilog2 x - 52) ≤ (((2 : Int) ^ 53 : Int) : ℚ) := by
      rw [div_le_iff₀ hq, quantum_mul_53]
      exact le_of_lt s2
    have := roundHalfEven_mono _ _ this
    rwa [roundHalfEven_intCast] at this

theorem flPos_bounds (x : ℚ) (hx : 0 < x) :
    (2 : ℚ) ^ ilog2 x ≤ flPos x ∧ flPos x ≤ (2 : ℚ) ^ (ilog2 x + 1) := by
  obtain ⟨m1, m2⟩ := significand_bounds x hx
  have hq := two_zpow_pos (ilog2 x - 52)
  unfold flPos
  simp only
  constructor
  · rw [← quantum_mul_52]
    apply mul_le_mul_of_nonneg_right _ (le_of_lt hq)
    exact_mod_cast m1
  · rw [← quantum_mul_53]
    apply mul_le_mul_of_nonneg_right _ (le_of_lt hq)
    exact_mod_cast m2

theorem flPos_pos (x : ℚ) (hx : 0 < x) : 0 < flPos x :=
  lt_of_lt_of_le (two_zpow_pos _) (flPos_bounds x hx).1

theorem flPos_mono (x y : ℚ) (hx : 0 < x) (h : x ≤ y) : flPos x ≤ flPos y := by
  have hy : 0 < y := lt_of_lt_of_le hx h
  have hle := ilog2_mono x y hx h
  rcases lt_or_eq_of_le hle with hlt | heq
  · calc flPos x ≤ (2 : ℚ) ^ (ilog2 x + 1) := (flPos_bounds x hx).2
      _ ≤ (2 : ℚ) ^ ilog2 y := (two_zpow_le_iff _ _).mpr (by omega)
      _ ≤ flPos y := (flPos_bounds y hy).1
  · unfold flPos
    simp only
    rw [heq]
    have hq := two_zpow_pos (ilog2 y - 52)
    apply mul_le_mul_of_nonneg_right _ (le_of_lt hq)
    have : x / (2 : ℚ) ^ (ilog2 y - 52) ≤ y / (2 : ℚ) ^ (ilog2 y - 52) :=
      div_le_div_of_nonneg_right h (le_of_lt hq)
    exact_mod_cast roundHalfEven_mono _ _ this

/-- A positive number of the form `m * 2 ^ (e - 52)` with `2 ^ 52 ≤ m ≤ 2 ^ 53` is its own
rounding. -/
theorem flPos_of_significand (m e : Int) (h1 : (2 : Int) ^ 52 ≤ m) (h2 : m ≤ (2 : Int) ^ 53) :
    flPos ((m : ℚ) * (2 : ℚ) ^ (e - 52)) = (m : ℚ) * (2 : ℚ) ^ (e - 52) := by
  have hq := two_zpow_pos (e - 52)
  have hm1 : (((2 : Int) ^ 52 : Int) : ℚ) ≤ (m : ℚ) := by exact_mod_cast h1
  have hm2 : (m : ℚ) ≤ (((2 : Int) ^ 53 : Int) : ℚ) := by exact_mod_cast h2
  have lo : (2 : ℚ) ^ e ≤ (m : ℚ) * (2 : ℚ) ^ (e - 52) := by
    rw [← quantum_mul_52]
    exact mul_le_mul_of_nonneg_right hm1 (le_of_lt hq)
  rcases lt_or_eq_of_le h2 with hlt | heq
  · have hm3 : (m : ℚ) < (((2 : Int) ^ 53 : Int) : ℚ) := by exact_mod_cast hlt
    have hi : (m : ℚ) * (2 : ℚ) ^ (e - 52) < (2 : ℚ) ^ (e + 1) := by
      rw [← quantum_mul_53]
      exact mul_lt_mul_of_pos_right hm3 hq
    have he := ilog2_eq_of_bounds _ e lo hi
    unfold flPos
    simp only
    rw [he, mul_div_assoc, div_self (ne_of_gt hq), mul_one, roundHalfEven_intCast]
  · have hval : (m : ℚ) * (2 : ℚ) ^ (e - 52) = (2 : ℚ) ^ (e + 1) := by
      rw [heq, quantum_mul_53]
    have he := ilog2_eq_of_bounds ((2 : ℚ) ^ (e + 1)) (e + 1) (le_refl _)
      ((two_zpow_lt_iff _ _).mpr (by omega))
    rw [hval]
    unfold flPos
    simp only
    rw [he]
    have hq2 := two_zpow_pos (e + 1 - 52)
    have hdiv : (2 : ℚ) ^ (e + 1) / (2 : ℚ) ^ (e + 1 - 52) = (((2 : Int) ^ 52 : Int) : ℚ) := by
      rw [div_eq_iff (ne_of_gt hq2), quantum_mul_52]
    rw [hdiv, roundHalfEven_intCast, quantum_mul_52]

theorem flPos_idem (x : ℚ) (hx : 0 < x) : flPos (flPos x) = flPos x := by
  obtain ⟨m1, m2⟩ := significand_bounds x hx
  have := flPos_of_significand (roundHalfEven (x / (2 : ℚ) ^ (ilog2 x - 52))) (ilog2 x) m1 m2
  exact this

theorem fl_of_pos (x : ℚ) (hx : 0 < x) : fl x = flPos x := by
  unfold fl
  simp [hx]

theorem fl_of_neg (x : ℚ) (hx : x < 0) : fl x = -flPos (-x) := by
  unfold fl
  simp [hx, not_lt.mpr (le_of_lt hx)]

theorem fl_zero : fl 0 = 0 := by
  unfold fl
  simp

theorem fl_mono (x y : ℚ) (h : x ≤ y) : fl x ≤ fl y := by
  rcases lt_trichotomy 0 x with hx | hx | hx
  · rw [fl_of_pos x hx, fl_of_pos y (lt_of_lt_of_le hx h)]
    exact flPos_mono x y hx h
  · subst hx
    rw [fl_zero]
    rcases lt_or_eq_of_le h with hy | hy
    · rw [fl_of_pos y hy]; exact le_of_lt (flPos_pos y hy)
    · rw [← hy, fl_zero]
  · rw [fl_of_neg x hx]
    have hnx : 0 < -x := by linarith
    rcases lt_trichotomy 0 y with hy | hy | hy
    · rw [fl_of_pos y hy]
      have := flPos_pos (-x) hnx
      have := flPos_pos y hy
      linarith
    · subst hy
      rw [fl_zero]
      have := flPos_pos (-x) hnx
      linarith
    · rw [fl_of_neg y hy]
      have hny : 0 < -y := by linarith
      have := flPos_mono (-y) (-x) hny (by linarith)
      linarith

theorem fl_idem (x : ℚ) : fl (fl x) = fl x := by
  rcases lt_trichotomy 0 x with hx | hx | hx
  · rw [fl_of_pos x hx, fl_of_pos _ (flPos_pos x hx), flPos_idem x hx]
  · subst hx
    rw [fl_zero, fl_zero]
  · have hnx : 0 < -x := by linarith
    have hp := flPos_pos (-x) hnx
    rw [fl_of_neg x hx, fl_of_neg _ (by linarith), neg_neg, flPos_idem (-x) hnx]


theorem fl_eq_of_near (x : ℚ) (e n : Int) (h1 : (2 : ℚ) ^ e ≤ x) (h2 : x < (2 : ℚ) ^ (e + 1))
    (h : |x / (2 : ℚ) ^ (e - 52) - n| < 1 / 2) : fl x = (n : ℚ) * (2 : ℚ) ^ (e - 52) := by
  have hx : 0 < x := lt_of_lt_of_le (two_zpow_pos e) h1
  rw [fl_of_pos x hx]
  unfold flPos
  simp only
  rw [ilog2_eq_of_bounds x e h1 h2, roundHalfEven_eq_of_near _ n h]

theorem fl_eq_of_tie (x : ℚ) (e n : Int) (h1 : (2 : ℚ) ^ e ≤ x) (h2 : x < (2 : ℚ) ^ (e + 1))
    (h : x / (2 : ℚ) ^ (e - 52) = (n : ℚ) + 1 / 2) :
    fl x = ((if n % 2 = 0 then n else n + 1 : Int) : ℚ) * (2 : ℚ) ^ (e - 52) := by
  have hx : 0 < x := lt_of_lt_of_le (two_zpow_pos e) h1
  rw [fl_of_pos x hx]
  unfold flPos
  simp only
  rw [ilog2_eq_of_bounds x e h1 h2, h, roundHalfEven_tie]

/-! ## Scheduler lemmas -/

theorem callsFor_append (name : String) (a b : List Effect) :
    callsFor name (a ++ b) = callsFor name a ++ callsFor name b := by
  simp [callsFor, List.filterMap_append]

theorem callsFor_scheduleEvent (now : ℚ) (stem name : String) (ev : NoteEvent) (w : ℚ) :
    callsFor name (scheduleEvent now stem ev w) = if stem = name then [(ev, w)] else [] := by
  unfold scheduleEvent callsFor
  by_cases h : stem = name <;> by_cases h2 : jsMul (jsSub w now) 1000 < 0 <;> simp [h, h2]

theorem lookAhead_eq_scanAhead (startTime T now : ℚ) (stem : String) (tl : List NoteEvent) :
    ∀ (fuel ptr : Nat), tl.length - ptr ≤ fuel →
      lookAhead startTime T now stem tl fuel ptr =
        (ptr + (scanAhead startTime T now stem (tl.drop ptr)).1,
          (scanAhead startTime T now stem (tl.drop ptr)).2) := by
  intro fuel
  induction fuel with
  | zero =>
    intro ptr h
    have h2 : tl.length ≤ ptr := by omega
    simp [lookAhead, List.drop_eq_nil_of_le h2, scanAhead]
  | succ fuel ih =>
    intro ptr h
    by_cases hp : ptr < tl.length
    · have hd : tl.drop ptr = tl[ptr] :: tl.drop (ptr + 1) := List.drop_eq_getElem_cons hp
      have hg : tl[ptr]? = some tl[ptr] := List.getElem?_eq_getElem hp
      have ih2 := ih (ptr + 1) (by omega)
      rw [lookAhead, hg, hd]
      simp only [scanAhead]
      by_cases hw : tl[ptr].t ≥ T ∧ tl[ptr].t < jsAdd T scheduleAheadTime
      · simp only [hw, and_self, if_true, ih2]
        simp [Nat.add_assoc, Nat.add_comm 1]
      · by_cases hl : tl[ptr].t < T
        · simp only [hw, if_false, hl, if_true, ih2]
          simp [Nat.add_assoc, Nat.add_comm 1]
        · simp [hw, hl]
    · have h2 : tl.length ≤ ptr := by omega
      have hg : tl[ptr]? = none := List.getElem?_eq_none h2
      rw [lookAhead, hg]
      simp [List.drop_eq_nil_of_le h2, scanAhead]


theorem scanAhead_le_length (startTime T now : ℚ) (stem : String) (l : List NoteEvent) :
    (scanAhead startTime T now stem l).1 ≤ l.length := by
  induction l with
  | nil => simp [scanAhead]
  | cons e rest ih =>
    simp only [scanAhead]
    split_ifs <;> simp <;> omega

theorem scanAhead_calls (startTime T now : ℚ) (stem : String) (l : List NoteEvent)
    (hs : l.Pairwise (fun a b => a.t ≤ b.t)) :
    callsFor stem (scanAhead startTime T now stem l).2 =
      (l.filter (fun e => decide (T ≤ e.t ∧ e.t < jsAdd T scheduleAheadTime))).map
        (fun e => (e, jsAdd startTime e.t)) := by
  induction l with
  | nil => simp [scanAhead, callsFor]
  | cons e rest ih =>
    have hr := ih (List.Pairwise.of_cons hs)
    have hrel : ∀ x ∈ rest, e.t ≤ x.t := fun x hx => List.rel_of_pairwise_cons hs hx
    simp only [scanAhead]
    by_cases hw : e.t ≥ T ∧ e.t < jsAdd T scheduleAheadTime
    · have hw2 : (T ≤ e.t ∧ e.t < jsAdd T scheduleAheadTime) := hw
      simp only [hw, and_self, if_true, callsFor_append, callsFor_scheduleEvent, hr]
      simp [List.filter_cons, hw2]
    · have hw2 : ¬ (T ≤ e.t ∧ e.t < jsAdd T scheduleAheadTime) := hw
      by_cases hl : e.t < T
      · simp only [hw, if_false, hl, if_true, hr]
        simp [List.filter_cons, hw2]
      · simp only [hw, if_false, hl]
        have hge : jsAdd T scheduleAheadTime ≤ e.t := by
          by_contra hc
          exact hw ⟨not_lt.mp hl, not_le.mp hc⟩
        simp [List.filter_cons, hw2, callsFor]
        intro a ha _
        linarith [hrel a ha]

theorem scanAhead_other (startTime T now : ℚ) (stem name : String) (hne : stem ≠ name)
    (l : List NoteEvent) : callsFor name (scanAhead startTime T now stem l).2 = [] := by
  induction l with
  | nil => simp [scanAhead, callsFor]
  | cons e rest ih =>
    simp only [scanAhead]
    split_ifs
    · simp [callsFor_append, callsFor_scheduleEvent, hne, ih]
    · exact ih
    · simp [callsFor]

theorem scanAhead_cursor (startTime T now : ℚ) (stem : String) (l : List NoteEvent)
    (hs : l.Pairwise (fun a b => a.t ≤ b.t)) (hTW : T ≤ jsAdd T scheduleAheadTime) :
    ∀ (i : Nat) (h : i < l.length),
      (i < (scanAhead startTime T now stem l).1 ↔ l[i].t < jsAdd T scheduleAheadTime) := by
  induction l with
  | nil => intro i h; simp at h
  | cons e rest ih =>
    have hr := ih (List.Pairwise.of_cons hs)
    have hrel : ∀ x ∈ rest, e.t ≤ x.t := fun x hx => List.rel_of_pairwise_cons hs hx
    intro i h
    simp only [scanAhead]
    by_cases hw : e.t ≥ T ∧ e.t < jsAdd T scheduleAheadTime
    · simp only [hw, and_self, if_true]
      cases i with
      | zero => simp [hw.2]
      | succ j =>
        have hj : j < rest.length := by simpa using h
        simpa using hr j hj
    · by_cases hl : e.t < T
      · simp only [hw, if_false, hl, if_true]
        cases i with
        | zero =>
          simp only [List.getElem_cons_zero]
          constructor
          · intro _; linarith
          · intro _; omega
        | succ j =>
          have hj : j < rest.length := by simpa using h
          simpa using hr j hj
      · simp only [hw, if_false, hl]
        have hge : jsAdd T scheduleAheadTime ≤ e.t := by
          by_contra hc
          exact hw ⟨not_lt.mp hl, not_le.mp hc⟩
        constructor
        · intro h0; omega
        · intro hlt
          exfalso
          cases i with
          | zero => simp only [List.getElem_cons_zero] at hlt; linarith
          | succ j =>
            have hj : j < rest.length := by simpa using h
            have hm : rest[j] ∈ rest := List.getElem_mem hj
            have := hrel _ hm
            simp only [List.getElem_cons_succ] at hlt
            linarith


theorem lookAhead_other (startTime T now : ℚ) (stem name : String) (hne : stem ≠ name)
    (tl : List NoteEvent) (ptr : Nat) :
    callsFor name (lookAhead startTime T now stem tl (tl.length - ptr) ptr).2 = [] := by
  rw [lookAhead_eq_scanAhead startTime T now stem tl _ ptr (le_refl _)]
  exact scanAhead_other startTime T now stem name hne _

theorem schedStems_absent (startTime T now : ℚ) (name : String) :
    ∀ (stems : List Stem) (ptrs : String → Option Nat), name ∉ stems.map Stem.name →
      (schedStems startTime T now stems ptrs).1 name = ptrs name ∧
        callsFor name (schedStems startTime T now stems ptrs).2 = [] := by
  intro stems
  induction stems with
  | nil => intro ptrs _; simp [schedStems, callsFor]
  | cons s rest ih =>
    intro ptrs hn
    have hne : s.name ≠ name := by
      intro h; apply hn; simp [h]
    have hrest : name ∉ rest.map Stem.name := by
      intro h; apply hn; simp only [List.map_cons, List.mem_cons]; exact Or.inr h
    unfold schedStems
    split
    · rename_i midiData _ _
      split
      · exact ih ptrs hrest
      · rename_i ptr _
        have h1 := ih (setPtr ptrs s.name
          (some (lookAhead startTime T now s.name midiData (midiData.length - ptr) ptr).1)) hrest
        refine ⟨?_, ?_⟩
        · simp only [h1.1, setPtr]
          simp [Ne.symm hne]
        · rw [callsFor_append, h1.2, lookAhead_other startTime T now s.name name hne]
          simp
    · exact ih ptrs hrest

theorem schedStems_at (startTime T now : ℚ) (s : Stem) (tl : List NoteEvent)
    (hmode : s.mode = Mode.midi) (htl : s.midiData = some tl) :
    ∀ (stems : List Stem) (ptrs : String → Option Nat) (c : Nat),
      (stems.map Stem.name).Nodup → s ∈ stems → ptrs s.name = some c →
      (schedStems startTime T now stems ptrs).1 s.name =
          some (lookAhead startTime T now s.name tl (tl.length - c) c).1 ∧
        callsFor s.name (schedStems startTime T now stems ptrs).2 =
          callsFor s.name (lookAhead startTime T now s.name tl (tl.length - c) c).2 := by
  intro stems
  induction stems with
  | nil => intro ptrs c _ hm; simp at hm
  | cons x rest ih =>
    intro ptrs c hnd hm hc
    have hnd2 : (rest.map Stem.name).Nodup := (List.nodup_cons.mp hnd).2
    have hxn : x.name ∉ rest.map Stem.name := (List.nodup_cons.mp hnd).1
    rcases List.mem_cons.mp hm with hx | hin
    · subst hx
      have h1 := schedStems_absent startTime T now s.name rest
        (setPtr ptrs s.name (some (lookAhead startTime T now s.name tl (tl.length - c) c).1)) hxn
      unfold schedStems
      simp only [hmode, htl, hc]
      refine ⟨?_, ?_⟩
      · rw [h1.1]; simp [setPtr]
      · rw [callsFor_append, h1.2]; simp
    · have hne : x.name ≠ s.name := by
        intro h; apply hxn; rw [h]; exact List.mem_map_of_mem Stem.name hin
      unfold schedStems
      split
      · rename_i midiData _ _
        split
        · exact ih ptrs c hnd2 hin hc
        · rename_i ptr _
          have h1 := ih (setPtr ptrs x.name
            (some (lookAhead startTime T now x.name midiData (midiData.length - ptr) ptr).1)) c hnd2 hin
            (by simp [setPtr, Ne.symm hne, hc])
          refine ⟨h1.1, ?_⟩
          rw [callsFor_append, h1.2, lookAhead_other startTime T now x.name s.name hne]
          simp
      · exact ih ptrs c hnd2 hin hc

theorem scheduleAheadTime_nonneg : (0 : ℚ) ≤ scheduleAheadTime := by
  have h := fl_mono 0 0.1 (by norm_num)
  rw [fl_zero] at h
  exact h

theorem jsAdd_mono_left (a b c : ℚ) (h : a ≤ b) : jsAdd a c ≤ jsAdd b c :=
  fl_mono _ _ (by linarith)

/-- The end of the look-ahead window, as the tick computes it, is not before the song time
the tick computed. -/
theorem songTime_le_windowEnd (now startTime : ℚ) :
    jsSub now startTime ≤ jsAdd (jsSub now startTime) scheduleAheadTime := by
  have h := fl_mono (jsSub now startTime) (jsSub now startTime + scheduleAheadTime)
    (by linarith [scheduleAheadTime_nonneg])
  have hi : fl (jsSub now startTime) = jsSub now startTime := fl_idem _
  rw [hi] at h
  exact h

/-- A computed song time that is at most the look-ahead after another one, as real numbers,
is not after the window end computed from that one. -/
theorem songTime_gap_le_windowEnd (a b startTime : ℚ)
    (h : jsSub b startTime - jsSub a startTime ≤ scheduleAheadTime) :
    jsSub b startTime ≤ jsAdd (jsSub a startTime) scheduleAheadTime := by
  have h1 := fl_mono (jsSub b startTime) (jsSub a startTime + scheduleAheadTime) (by linarith)
  have hi : fl (jsSub b startTime) = jsSub b startTime := fl_idem _
  rw [hi] at h1
  exact h1

/-- One tick for a stem in synthesized mode with a sorted timeline: the calls made and the
cursor afterwards, from any cursor `c`. -/
theorem scheduler_tick_calls (p : Player) (now : ℚ) (s : Stem) (tl : List NoteEvent) (c : Nat)
    (hplay : p.isPlaying = true) (hnd : (p.stems.map Stem.name).Nodup) (hs : s ∈ p.stems)
    (hmode : s.mode = Mode.midi) (htl : s.midiData = some tl)
    (hsorted : tl.Pairwise (fun a b => a.t ≤ b.t))
    (hc : p.notePtrs s.name = some c) :
    callsFor s.name (scheduler p now).2 =
        ((tl.drop c).filter (fun e =>
          decide (jsSub now p.startTime ≤ e.t ∧
            e.t < jsAdd (jsSub now p.startTime) scheduleAheadTime))).map
          (fun e => (e, jsAdd p.startTime e.t)) ∧
      ∃ c', (scheduler p now).1.notePtrs s.name = some c' ∧ c ≤ c' ∧
        (c ≤ tl.length → c' ≤ tl.length) ∧
        ∀ (i : Nat) (h : i < tl.length), c ≤ i →
          (i < c' ↔ tl[i].t < jsAdd (jsSub now p.startTime) scheduleAheadTime) := by
  have hmain := schedStems_at p.startTime (jsSub now p.startTime) now s tl hmode htl
    p.stems p.notePtrs c hnd hs hc
  have hla := lookAhead_eq_scanAhead p.startTime (jsSub now p.startTime) now s.name tl
    (tl.length - c) c (le_refl _)
  have hsd : (tl.drop c).Pairwise (fun a b => a.t ≤ b.t) :=
    List.Pairwise.sublist (List.drop_sublist c tl) hsorted
  refine ⟨?_, ?_⟩
  · simp only [scheduler, hplay, Bool.not_true, Bool.false_eq_true, if_false, callsFor_append]
    rw [hmain.2, hla]
    simp only
    rw [scanAhead_calls _ _ _ _ _ hsd]
    have h1 : callsFor s.name (if p.onTimeUpdate = true then
        [Effect.timeUpdate (jsSub now p.startTime)] else []) = [] := by
      split_ifs <;> simp [callsFor]
    have h2 : callsFor s.name [Effect.tickTimeout 25] = [] := by simp [callsFor]
    rw [h1, h2]
    simp
  · refine ⟨c + (scanAhead p.startTime (jsSub now p.startTime) now s.name (tl.drop c)).1,
      ?_, ?_, ?_, ?_⟩
    · simp only [scheduler, hplay, Bool.not_true, Bool.false_eq_true, if_false]
      rw [hmain.1, hla]
    · omega
    · intro hcl
      have := scanAhead_le_length p.startTime (jsSub now p.startTime) now s.name (tl.drop c)
      rw [List.length_drop] at this
      omega
    · intro i h hci
      have hlen : i - c < (tl.drop c).length := by rw [List.length_drop]; omega
      have hcur := scanAhead_cursor p.startTime (jsSub now p.startTime) now s.name (tl.drop c)
        hsd (songTime_le_windowEnd now p.startTime) (i - c) hlen
      have hget : (tl.drop c)[i - c] = tl[i] := by
        rw [List.getElem_drop]
        congr 1
        omega
      rw [hget] at hcur
      rw [← hcur]
      omega

/-- C1 as stated fails at the end of the window: with clock origin 0 and the only event of
the timeline at the timestamp `9.1`, the tick at clock reading 9 (song time `T = 9`)
passes nothing to `scheduleEvent`, although `T ≤ t < T + 0.1` holds of the numbers: the
sum `9 + 0.1` that the tick computes is the number `9.1` itself. -/
theorem tick_skips_event_at_rounded_window_end :
    callsFor "lead" (scheduler boundaryPlayer 9).2 = [] ∧
      boundaryPlayer.stems.map Stem.midiData = [some [⟨fl 9.1, EventType.on, 60, 100⟩]] ∧
      ((9 : ℚ) - boundaryPlayer.startTime ≤ fl 9.1 ∧
        fl 9.1 < 9 - boundaryPlayer.startTime + 0.1) ∧
      jsAdd (jsSub 9 boundaryPlayer.startTime) scheduleAheadTime = fl 9.1 := by
  decide!

/-- C1 amended: one scheduler tick, for a stem in synthesized mode with a timeline sorted by
timestamp and cursor `c` within it, computes the song time `T = now - startTime` and the
window end `W = T + 0.1` in binary64 arithmetic (`jsSub`, `jsAdd`) and passes to
`scheduleEvent` exactly the events at index `c` or later with `T ≤ t < W`, in timeline
order, each with the trigger time `startTime + t` computed in the same arithmetic; the new
cursor lies past every event from `c` on with `t < W` (the late ones are passed over
undispatched) and at or before every event with `t ≥ W`. -/
theorem scheduler_tick_dispatches_window (p : Player) (now : ℚ) (s : Stem)
    (tl : List NoteEvent) (c : Nat)
    (hplay : p.isPlaying = true) (hnd : (p.stems.map Stem.name).Nodup) (hs : s ∈ p.stems)
    (hmode : s.mode = Mode.midi) (htl : s.midiData = some tl)
    (hsorted : tl.Pairwise (fun a b => a.t ≤ b.t))
    (hc : p.notePtrs s.name = some c) (hcl : c ≤ tl.length) :
    callsFor s.name (scheduler p now).2 =
        ((tl.drop c).filter (fun e =>
          decide (jsSub now p.startTime ≤ e.t ∧
            e.t < jsAdd (jsSub now p.startTime) scheduleAheadTime))).map
          (fun e => (e, jsAdd p.startTime e.t)) ∧
      ∃ c', (scheduler p now).1.notePtrs s.name = some c' ∧ c ≤ c' ∧ c' ≤ tl.length ∧
        ∀ (i : Nat) (h : i < tl.length), c ≤ i →
          (i < c' ↔ tl[i].t < jsAdd (jsSub now p.startTime) scheduleAheadTime) := by
  obtain ⟨hcalls, c', h1, h2, h3, h4⟩ :=
    scheduler_tick_calls p now s tl c hplay hnd hs hmode htl hsorted hc
  exact ⟨hcalls, c', h1, h2, h3 hcl, h4⟩

theorem scheduler_tick_dispatches_window_witness :
    callsFor "lead" (scheduler windowPlayer 0).2 =
        [(⟨fl 0.05, EventType.on, 60, 100⟩, fl 0.05)] ∧
      callsFor "lead" (scheduler windowPlayer (fl 0.35)).2 =
        [(⟨fl 0.40, EventType.off, 60, 0⟩, fl 0.40)] := by
  have h0 := (scheduler_tick_dispatches_window windowPlayer 0 _ scenarioTimeline 0 rfl
    (by simp [windowPlayer]) (List.mem_singleton.mpr rfl) rfl rfl
    (by decide!) rfl (by decide)).1
  have h1 := (scheduler_tick_dispatches_window windowPlayer (fl 0.35) _ scenarioTimeline 0 rfl
    (by simp [windowPlayer]) (List.mem_singleton.mpr rfl) rfl rfl
    (by decide!) rfl (by decide)).1
  exact ⟨h0.trans (by decide!), h1.trans (by decide!)⟩

/-! ## Engine: unknown instrument index -/

theorem instruments_length : instruments.length = 10 := rfl

theorem getInstrument_unknown (i : Int) (h : i < 0 ∨ 10 ≤ i) : getInstrument i = none := by
  unfold getInstrument
  split_ifs with h0
  · apply List.getElem?_eq_none
    rw [instruments_length]
    omega
  · rfl

/-- C2 (what the code does): for an instrument index outside 0..9, `noteOn` with non-zero
velocity returns normally and leaves the engine state unchanged, but `noteOff`, and
`noteOn` with velocity 0 which delegates to it, raise a `TypeError` on `inst.poly`. -/
theorem unknown_instrument_noteOff_raises (s : Xmlynth) (i note velocity : Int)
    (h : i < 0 ∨ 10 ≤ i) :
    noteOff s i note = Except.error JsError.typeError ∧
      noteOn s i note 0 = Except.error JsError.typeError ∧
      (velocity ≠ 0 → noteOn s i note velocity = Except.ok s) := by
  have hg := getInstrument_unknown i h
  refine ⟨?_, ?_, ?_⟩
  · simp [noteOff, hg]
  · simp [noteOn, noteOff, hg]
  · intro hv
    simp [noteOn, hv, hg]

theorem unknown_instrument_noteOff_raises_witness :
    noteOff Xmlynth.new 10 60 = Except.error JsError.typeError ∧
      noteOn Xmlynth.new 10 60 0 = Except.error JsError.typeError ∧
      ((100 : Int) ≠ 0 → noteOn Xmlynth.new 10 60 100 = Except.ok Xmlynth.new) :=
  unknown_instrument_noteOff_raises Xmlynth.new 10 60 100 (Or.inr (le_refl _))

/-! ## Engine: registry timers -/

/-- C3 (what the code does): after `noteOn(0,60,100)` at 0, `noteOff(0,60)` at 1 and a
second `noteOn(0,60,100)` at 1.1, the registry holds the second voice (reference 1, never
released) under the key of the first, whose removal timer is due at 1.7; when that timer
fires at 1.7 it deletes the key, and the voice that is still active leaves the registry. -/
theorem removal_timer_deletes_retriggered_voice :
    (runSynth Xmlynth.new retriggerTrace).map
        (fun s => (s.activeVoices ⟨0, 60⟩, released s 0, released s 1,
          s.timers.map Timer.due, s.currentTime)) =
      some (some 1, true, false, [1.7], 1.7) ∧
    (runSynth Xmlynth.new (retriggerTrace ++ [SynthOp.fire 0])).map
        (fun s => (s.activeVoices ⟨0, 60⟩, released s 1, s.timers.length)) =
      some (none, false, 0) := by
  constructor <;> decide!

/-! ## Stem table lemmas -/

theorem getStem_name (stems : List Stem) (name : String) (s : Stem)
    (h : getStem stems name = some s) : s.name = name := by
  have := List.find?_some h
  simpa using this

theorem getStem_mem (stems : List Stem) (name : String) (s : Stem)
    (h : getStem stems name = some s) : s ∈ stems :=
  List.mem_of_find?_eq_some h

theorem getStem_setStem (stems : List Stem) (s : Stem) :
    getStem (setStem stems s) s.name = some s := by
  induction stems with
  | nil => simp [setStem, getStem]
  | cons x xs ih =>
    unfold setStem
    split_ifs with hx
    · simp [getStem]
    · simp only [getStem, List.find?_cons, hx, decide_False]
      exact ih

theorem mem_setStem (stems : List Stem) (s x : Stem) (h : x ∈ setStem stems s) :
    x = s ∨ x ∈ stems := by
  induction stems with
  | nil => simp [setStem] at h; exact Or.inl h
  | cons y ys ih =>
    unfold setStem at h
    split_ifs at h with hy
    · rcases List.mem_cons.mp h with h1 | h1
      · exact Or.inl h1
      · exact Or.inr (List.mem_cons_of_mem _ h1)
    · rcases List.mem_cons.mp h with h1 | h1
      · exact Or.inr (by rw [h1]; exact List.mem_cons_self _ _)
      · rcases ih h1 with h2 | h2
        · exact Or.inl h2
        · exact Or.inr (List.mem_cons_of_mem _ h2)

/-! ## `syncMidiPointer` -/

theorem syncScan_spec (tl : List NoteEvent) (T : ℚ) :
    ∀ (fuel ptr : Nat), tl.length - ptr ≤ fuel → ptr ≤ tl.length →
      ptr ≤ syncScan tl T fuel ptr ∧ syncScan tl T fuel ptr ≤ tl.length ∧
      (∀ (j : Nat) (h : j < tl.length), ptr ≤ j → j < syncScan tl T fuel ptr → tl[j].t < T) ∧
      (∀ (h : syncScan tl T fuel ptr < tl.length), T ≤ tl[syncScan tl T fuel ptr].t) := by
  intro fuel
  induction fuel with
  | zero =>
    intro ptr h hp
    have : ptr = tl.length := by omega
    subst this
    simp [syncScan]
    intro j hj h1 h2
    omega
  | succ fuel ih =>
    intro ptr h hp
    by_cases hlt : ptr < tl.length
    · have hg : tl[ptr]? = some tl[ptr] := List.getElem?_eq_getElem hlt
      rw [syncScan, hg]
      simp only
      by_cases ht : tl[ptr].t < T
      · simp only [ht, if_true]
        obtain ⟨h1, h2, h3, h4⟩ := ih (ptr + 1) (by omega) (by omega)
        refine ⟨by omega, h2, ?_, h4⟩
        intro j hj hpj hjs
        by_cases hjp : j = ptr
        · subst hjp; exact ht
        · exact h3 j hj (by omega) hjs
      · simp only [ht, if_false]
        refine ⟨le_refl _, hp, ?_, ?_⟩
        · intro j hj h1 h2; omega
        · intro _; exact not_lt.mp ht
    · have hg : tl[ptr]? = none := List.getElem?_eq_none (by omega)
      rw [syncScan, hg]
      simp only
      refine ⟨le_refl _, hp, ?_, ?_⟩
      · intro j hj h1 h2; omega
      · intro h; omega

theorem toggleStemMode_to_midi_playing (p : Player) (now : ℚ) (name : String) (s : Stem)
    (tl : List NoteEvent) (hplay : p.isPlaying = true) (hs : getStem p.stems name = some s)
    (hmode : s.mode = Mode.audio) (htl : s.midiData = some tl) :
    toggleStemMode p now name = Except.ok
      ({ p with stems := setStem p.stems { s with mode := Mode.midi },
                notePtrs := setPtr p.notePtrs name
                  (some (syncScan tl (now - p.startTime) tl.length 0)) },
        (if s.audioElem.isSome then [Effect.audioPause name] else []) ++
          (if p.onStemUpdate then [Effect.stemUpdate] else [])) := by
  have hname := getStem_name _ _ _ hs
  have hget : getStem (setStem p.stems { s with mode := Mode.midi }) name =
      some { s with mode := Mode.midi } := by
    have := getStem_setStem p.stems { s with mode := Mode.midi }
    simpa [hname] using this
  rw [htl] at hget
  simp only [toggleStemMode, hs, hmode, htl, hplay, syncMidiPointer]
  simp [hget, hplay, htl]

theorem toggleStemMode_to_audio_playing (p : Player) (now : ℚ) (name : String) (s : Stem)
    (a : AudioElem) (hplay : p.isPlaying = true) (hs : getStem p.stems name = some s)
    (hmode : s.mode = Mode.midi) (ha : s.audioElem = some a) :
    toggleStemMode p now name = Except.ok
      ({ p with stems := setStem p.stems { s with mode := Mode.audio } },
        [Effect.audioSeek name (now - p.startTime), Effect.audioPlay name] ++
          (if p.onStemUpdate then [Effect.stemUpdate] else [])) := by
  simp only [toggleStemMode, hs, hmode, ha, hplay]
  simp [hplay, ha]

/-- C5: while the transport is playing at song time `T = now - startTime`, a toggle that
is not rejected succeeds. Into synthesized mode it leaves the cursor at the least index
whose timestamp is at least `T` (all earlier events are before `T`), or at the length of
the timeline when there is none, whatever the cursor was; into prerecorded mode it sets
the position of the audio handle to `T` and starts it. -/
theorem toggleStemMode_resync (p : Player) (now : ℚ) (name : String) (s : Stem)
    (hplay : p.isPlaying = true) (hs : getStem p.stems name = some s) :
    (∀ tl, s.mode = Mode.audio → s.midiData = some tl →
      ∃ p1 es, toggleStemMode p now name = Except.ok (p1, es) ∧
        (getStem p1.stems name).map Stem.mode = some Mode.midi ∧
        ∃ i, p1.notePtrs name = some i ∧ i ≤ tl.length ∧
          (∀ (j : Nat) (h : j < tl.length), j < i → tl[j].t < now - p.startTime) ∧
          (∀ (h : i < tl.length), now - p.startTime ≤ tl[i].t)) ∧
    (∀ a, s.mode = Mode.midi → s.audioElem = some a →
      ∃ p1, toggleStemMode p now name =
          Except.ok (p1, [Effect.audioSeek name (now - p.startTime), Effect.audioPlay name] ++
            (if p.onStemUpdate then [Effect.stemUpdate] else [])) ∧
        (getStem p1.stems name).map Stem.mode = some Mode.audio) := by
  have hname := getStem_name _ _ _ hs
  constructor
  · intro tl hmode htl
    have hget : getStem (setStem p.stems { s with mode := Mode.midi }) name =
        some { s with mode := Mode.midi } := by
      have := getStem_setStem p.stems { s with mode := Mode.midi }
      simpa [hname] using this
    obtain ⟨_, h2, h3, h4⟩ :=
      syncScan_spec tl (now - p.startTime) tl.length 0 (by omega) (by omega)
    refine ⟨_, _, toggleStemMode_to_midi_playing p now name s tl hplay hs hmode htl, ?_, ?_⟩
    · simp [hget]
    · refine ⟨syncScan tl (now - p.startTime) tl.length 0, ?_, h2, ?_, h4⟩
      · simp [setPtr]
      · intro j hj hji
        exact h3 j hj (Nat.zero_le _) hji
  · intro a hmode ha
    have hget : getStem (setStem p.stems { s with mode := Mode.audio }) name =
        some { s with mode := Mode.audio } := by
      have := getStem_setStem p.stems { s with mode := Mode.audio }
      simpa [hname] using this
    refine ⟨_, toggleStemMode_to_audio_playing p now name s a hplay hs hmode ha, ?_⟩
    simp [hget]

theorem toggleStemMode_resync_witness :
    (∃ p1 es, toggleStemMode togglePlayer 0.2 "lead" = Except.ok (p1, es) ∧
      (getStem p1.stems "lead").map Stem.mode = some Mode.midi ∧
      p1.notePtrs "lead" = some 1) ∧
    (∃ p1, toggleStemMode togglePlayer 0.2 "bass" =
        Except.ok (p1, [Effect.audioSeek "bass" 0.2, Effect.audioPlay "bass"]) ∧
      (getStem p1.stems "bass").map Stem.mode = some Mode.audio) := by
  constructor
  · obtain ⟨p1, es, h1, h2, i, h3, h4, h5, h6⟩ :=
      (toggleStemMode_resync togglePlayer 0.2 "lead" togglePlayer.stems[0] rfl
        (by rfl)).1 [⟨0.05, EventType.on, 60, 100⟩, ⟨0.40, EventType.off, 60, 0⟩] rfl rfl
    refine ⟨p1, es, h1, h2, ?_⟩
    have hi : i = 1 := by
      simp only [List.length_cons, List.length_nil] at h4 h5 h6
      interval_cases i
      · have := h6 (by norm_num)
        simp [togglePlayer] at this
        norm_num at this
      · rfl
      · have := h5 1 (by norm_num) (by norm_num)
        simp [togglePlayer] at this
        norm_num at this
    rw [h3, hi]
  · obtain ⟨p1, h1, h2⟩ :=
      (toggleStemMode_resync togglePlayer 0.2 "bass" togglePlayer.stems[1] rfl
        (by rfl)).2 ⟨"bass.ogg"⟩ rfl rfl
    refine ⟨p1, ?_, h2⟩
    rw [h1]
    simp [togglePlayer]

/-- C9: `toggleStemMode(name)` changes nothing when the stem is unknown, when the stem is
in prerecorded mode and has no timeline, or when it is in synthesized mode and has no
audio handle: the player is returned as it was, playing or stopped, and the only call made
is at most a `console.warn`, so no audio handle is touched and the stems-changed callback
does not run. -/
theorem toggleStemMode_rejected_noop (p : Player) (now : ℚ) (name : String)
    (h : getStem p.stems name = none ∨
      (∃ s, getStem p.stems name = some s ∧ s.mode = Mode.audio ∧ s.midiData = none) ∨
      (∃ s, getStem p.stems name = some s ∧ s.mode = Mode.midi ∧ s.audioElem = none)) :
    ∃ es, toggleStemMode p now name = Except.ok (p, es) ∧
      ∀ e ∈ es, ∃ msg, e = Effect.consoleWarn msg := by
  rcases h with h | ⟨s, hs, hm, hd⟩ | ⟨s, hs, hm, ha⟩
  · exact ⟨[], by simp [toggleStemMode, h], by simp⟩
  · exact ⟨[Effect.consoleWarn ("No MIDI data for stem " ++ name)],
      by simp [toggleStemMode, hs, hm, hd], by simp⟩
  · exact ⟨[], by simp [toggleStemMode, hs, hm, ha], by simp⟩

theorem toggleStemMode_rejected_noop_witness :
    (∃ es, toggleStemMode togglePlayer 0.2 "drums" = Except.ok (togglePlayer, es) ∧
      ∀ e ∈ es, ∃ msg, e = Effect.consoleWarn msg) ∧
    (∃ es, toggleStemMode togglePlayer 0.2 "pad" = Except.ok (togglePlayer, es) ∧
      ∀ e ∈ es, ∃ msg, e = Effect.consoleWarn msg) ∧
    (∃ es, toggleStemMode togglePlayer 0.2 "keys" = Except.ok (togglePlayer, es) ∧
      ∀ e ∈ es, ∃ msg, e = Effect.consoleWarn msg) :=
  ⟨toggleStemMode_rejected_noop togglePlayer 0.2 "drums" (Or.inl (by decide)),
   toggleStemMode_rejected_noop togglePlayer 0.2 "pad"
     (Or.inr (Or.inl ⟨togglePlayer.stems[2], by rfl, rfl, rfl⟩)),
   toggleStemMode_rejected_noop togglePlayer 0.2 "keys"
     (Or.inr (Or.inr ⟨togglePlayer.stems[3], by rfl, rfl, rfl⟩))⟩

/-! ## Cursor over consecutive ticks -/

theorem scheduler_stems (p : Player) (now : ℚ) : (scheduler p now).1.stems = p.stems := by
  unfold scheduler
  split_ifs <;> rfl

theorem scheduler_cursor_step (p : Player) (now : ℚ) (s : Stem) (tl : List NoteEvent) (c : Nat)
    (hnd : (p.stems.map Stem.name).Nodup) (hs : s ∈ p.stems)
    (hmode : s.mode = Mode.midi) (htl : s.midiData = some tl)
    (hc : p.notePtrs s.name = some c) (hcl : c ≤ tl.length) :
    ∃ c', (scheduler p now).1.notePtrs s.name = some c' ∧ c ≤ c' ∧ c' ≤ tl.length := by
  by_cases hplay : p.isPlaying = true
  · have hmain := schedStems_at p.startTime (jsSub now p.startTime) now s tl hmode htl
      p.stems p.notePtrs c hnd hs hc
    have hla := lookAhead_eq_scanAhead p.startTime (jsSub now p.startTime) now s.name tl
      (tl.length - c) c (le_refl _)
    have hlen := scanAhead_le_length p.startTime (jsSub now p.startTime) now s.name (tl.drop c)
    rw [List.length_drop] at hlen
    refine ⟨c + (scanAhead p.startTime (jsSub now p.startTime) now s.name (tl.drop c)).1, ?_, ?_, ?_⟩
    · simp only [scheduler, hplay, Bool.not_true, Bool.false_eq_true, if_false]
      rw [hmain.1, hla]
    · omega
    · omega
  · refine ⟨c, ?_, le_refl _, hcl⟩
    simp [scheduler, hplay, hc]

/-- C7: for a stem in synthesized mode with its cursor within the timeline, over any
sequence of consecutive scheduler ticks at arbitrary clock readings (the stems, and so the
stem's mode, are left as they are by a tick), the cursor after a tick is at least the
cursor before it and at most the length of the timeline. -/
theorem cursor_monotone_over_ticks (nows : List ℚ) :
    ∀ (p : Player) (now : ℚ) (s : Stem) (tl : List NoteEvent) (c : Nat),
      (p.stems.map Stem.name).Nodup → s ∈ p.stems → s.mode = Mode.midi →
      s.midiData = some tl → p.notePtrs s.name = some c → c ≤ tl.length →
      (ticks p nows).stems = p.stems ∧
      ∃ c1 c2, (ticks p nows).notePtrs s.name = some c1 ∧
        (scheduler (ticks p nows) now).1.notePtrs s.name = some c2 ∧
        c ≤ c1 ∧ c1 ≤ c2 ∧ c2 ≤ tl.length := by
  induction nows with
  | nil =>
    intro p now s tl c hnd hs hmode htl hc hcl
    obtain ⟨c2, h1, h2, h3⟩ := scheduler_cursor_step p now s tl c hnd hs hmode htl hc hcl
    exact ⟨rfl, c, c2, hc, h1, le_refl _, h2, h3⟩
  | cons t rest ih =>
    intro p now s tl c hnd hs hmode htl hc hcl
    obtain ⟨c', h1, h2, h3⟩ := scheduler_cursor_step p t s tl c hnd hs hmode htl hc hcl
    have hst := scheduler_stems p t
    obtain ⟨hs2, c1, c2, k1, k2, k3, k4, k5⟩ := ih (scheduler p t).1 now s tl c'
      (by rw [hst]; exact hnd) (by rw [hst]; exact hs) hmode htl h1 h3
    refine ⟨?_, c1, c2, k1, k2, by omega, k4, k5⟩
    simp only [ticks]
    rw [hs2, hst]

theorem cursor_monotone_over_ticks_witness :
    (ticks scenarioPlayer [0, 0.35, 0.2]).stems = scenarioPlayer.stems ∧
      ∃ c1 c2, (ticks scenarioPlayer [0, 0.35, 0.2]).notePtrs "lead" = some c1 ∧
        (scheduler (ticks scenarioPlayer [0, 0.35, 0.2]) 0.6).1.notePtrs "lead" = some c2 ∧
        0 ≤ c1 ∧ c1 ≤ c2 ∧ c2 ≤ 2 :=
  cursor_monotone_over_ticks [0, 0.35, 0.2] scenarioPlayer 0.6 scenarioPlayer.stems[0]
    [⟨0.05, EventType.on, 60, 100⟩, ⟨0.40, EventType.off, 60, 0⟩] 0
    (by simp [scenarioPlayer]) (List.mem_singleton.mpr rfl) rfl rfl rfl (Nat.zero_le _)

/-! ## Mode and backing source -/

theorem newStem_mode (node : StemNode) : (newStem node).mode = Mode.audio := by
  unfold newStem
  cases node.audioSrc <;> simp only [] <;> split_ifs <;> rfl

theorem newStem_audioElem (node : StemNode) (h : truthy (newStem node).audioSrc = true) :
    (newStem node).audioElem.isSome = true := by
  unfold newStem at h ⊢
  cases hsrc : node.audioSrc with
  | none =>
    rw [hsrc] at h
    simp only [] at h
    split_ifs at h <;> simp [truthy, hsrc] at h
  | some src =>
    rw [hsrc] at h
    simp only [] at h ⊢
    have ht : truthy (some src) = true := by
      split_ifs at h <;> simpa [hsrc] using h
    simp only [ht, if_true]
    split_ifs <;> rfl

/-- What every stem record satisfies from the loader on: in synthesized mode the timeline
is present, and a stem with an audio source has its audio handle. -/
theorem loadStem_sources (stems : List Stem) (node : StemNode)
    (h : ∀ s ∈ stems, (s.mode = Mode.midi → s.midiData.isSome) ∧
      (truthy s.audioSrc = true → s.audioElem.isSome)) :
    ∀ s ∈ loadStem stems node, (s.mode = Mode.midi → s.midiData.isSome) ∧
      (truthy s.audioSrc = true → s.audioElem.isSome) := by
  intro s hs
  rcases mem_setStem _ _ _ hs with h1 | h1
  · subst h1
    refine ⟨?_, newStem_audioElem node⟩
    intro hm
    rw [newStem_mode] at hm
    exact absurd hm (by decide)
  · exact h s h1

theorem loadXML_sources (nodes : List StemNode) :
    ∀ (acc : List Stem), (∀ s ∈ acc, (s.mode = Mode.midi → s.midiData.isSome) ∧
        (truthy s.audioSrc = true → s.audioElem.isSome)) →
      ∀ s ∈ nodes.foldl loadStem acc, (s.mode = Mode.midi → s.midiData.isSome) ∧
        (truthy s.audioSrc = true → s.audioElem.isSome) := by
  induction nodes with
  | nil => intro acc h; simpa using h
  | cons n rest ih =>
    intro acc h
    simp only [List.foldl_cons]
    exact ih _ (loadStem_sources acc n h)

theorem play_stems (p : Player) (now : ℚ) (b : Bool) : (play p now b).1.stems = p.stems := by
  simp [play, scheduler_stems]

theorem toggleStemMode_stopped (p : Player) (now : ℚ) (name : String) (s : Stem)
    (hplay : p.isPlaying = false) (hs : getStem p.stems name = some s)
    (hok : (s.mode = Mode.audio ∧ s.midiData.isSome) ∨
      (s.mode = Mode.midi ∧ s.audioElem.isSome)) :
    toggleStemMode p now name = Except.ok
      ({ p with stems :=
          setStem p.stems { s with mode := if s.mode = Mode.audio then Mode.midi else Mode.audio } },
        if p.onStemUpdate then [Effect.stemUpdate] else []) := by
  rcases hok with ⟨hm, hd⟩ | ⟨hm, ha⟩
  · obtain ⟨tl, htl⟩ := Option.isSome_iff_exists.mp hd
    simp [toggleStemMode, hs, hm, htl, hplay]
  · obtain ⟨a, ha2⟩ := Option.isSome_iff_exists.mp ha
    simp [toggleStemMode, hs, hm, ha2, hplay]

theorem toggleStemMode_stems (p q : Player) (now : ℚ) (name : String) (es : List Effect)
    (h : toggleStemMode p now name = Except.ok (q, es)) :
    q.stems = p.stems ∨ ∃ s, s ∈ p.stems ∧
      ((s.mode = Mode.audio ∧ s.midiData.isSome ∧
          q.stems = setStem p.stems { s with mode := Mode.midi }) ∨
        (s.mode = Mode.midi ∧ s.audioElem.isSome ∧
          q.stems = setStem p.stems { s with mode := Mode.audio })) := by
  cases hs : getStem p.stems name with
  | none =>
    obtain ⟨es1, h1, _⟩ := toggleStemMode_rejected_noop p now name (Or.inl hs)
    rw [h1] at h
    simp only [Except.ok.injEq, Prod.mk.injEq] at h
    exact Or.inl (by rw [← h.1])
  | some s =>
    have hmem := getStem_mem _ _ _ hs
    cases hm : s.mode with
    | audio =>
      cases hd : s.midiData with
      | none =>
        obtain ⟨es1, h1, _⟩ := toggleStemMode_rejected_noop p now name
          (Or.inr (Or.inl ⟨s, hs, hm, hd⟩))
        rw [h1] at h
        simp only [Except.ok.injEq, Prod.mk.injEq] at h
        exact Or.inl (by rw [← h.1])
      | some tl =>
        right
        refine ⟨s, hmem, Or.inl ⟨hm, by simp [hd], ?_⟩⟩
        cases hp : p.isPlaying with
        | true =>
          rw [toggleStemMode_to_midi_playing p now name s tl hp hs hm hd] at h
          simp only [Except.ok.injEq, Prod.mk.injEq] at h
          rw [← h.1]
        | false =>
          rw [toggleStemMode_stopped p now name s hp hs (Or.inl ⟨hm, by simp [hd]⟩)] at h
          simp only [Except.ok.injEq, Prod.mk.injEq] at h
          rw [← h.1]
          simp [hm]
    | midi =>
      cases ha : s.audioElem with
      | none =>
        obtain ⟨es1, h1, _⟩ := toggleStemMode_rejected_noop p now name
          (Or.inr (Or.inr ⟨s, hs, hm, ha⟩))
        rw [h1] at h
        simp only [Except.ok.injEq, Prod.mk.injEq] at h
        exact Or.inl (by rw [← h.1])
      | some a =>
        right
        refine ⟨s, hmem, Or.inr ⟨hm, by simp [ha], ?_⟩⟩
        cases hp : p.isPlaying with
        | true =>
          rw [toggleStemMode_to_audio_playing p now name s a hp hs hm ha] at h
          simp only [Except.ok.injEq, Prod.mk.injEq] at h
          rw [← h.1]
        | false =>
          rw [toggleStemMode_stopped p now name s hp hs (Or.inr ⟨hm, by simp [ha]⟩)] at h
          simp only [Except.ok.injEq, Prod.mk.injEq] at h
          rw [← h.1]
          simp [hm]

theorem changeInstrument_stems (p : Player) (name : String) (instId : Int) :
    (changeInstrument p name instId).1.stems = p.stems ∨ ∃ s, s ∈ p.stems ∧
      (changeInstrument p name instId).1.stems = setStem p.stems { s with instId := instId } := by
  unfold changeInstrument
  cases hs : getStem p.stems name with
  | none => exact Or.inl rfl
  | some s => exact Or.inr ⟨s, getStem_mem _ _ _ hs, rfl⟩

theorem applyPlayerOp_sources (p q : Player) (op : PlayerOp)
    (h : ∀ s ∈ p.stems, (s.mode = Mode.midi → s.midiData.isSome) ∧
      (truthy s.audioSrc = true → s.audioElem.isSome))
    (hq : applyPlayerOp p op = some q) :
    ∀ s ∈ q.stems, (s.mode = Mode.midi → s.midiData.isSome) ∧
      (truthy s.audioSrc = true → s.audioElem.isSome) := by
  cases op with
  | play now b =>
    simp only [applyPlayerOp, Option.some.injEq] at hq
    rw [← hq, play_stems]; exact h
  | pause =>
    simp only [applyPlayerOp, Option.some.injEq] at hq
    rw [← hq]; exact h
  | tick now =>
    simp only [applyPlayerOp, Option.some.injEq] at hq
    rw [← hq, scheduler_stems]; exact h
  | changeInstrument name instId =>
    simp only [applyPlayerOp, Option.some.injEq] at hq
    rw [← hq]
    rcases changeInstrument_stems p name instId with h1 | ⟨s, hs, h1⟩
    · rw [h1]; exact h
    · rw [h1]
      intro x hx
      rcases mem_setStem _ _ _ hx with h2 | h2
      · subst h2; exact h s hs
      · exact h x h2
  | toggleStemMode now name =>
    simp only [applyPlayerOp] at hq
    cases ht : toggleStemMode p now name with
    | error e => rw [ht] at hq; simp at hq
    | ok r =>
      rw [ht] at hq
      simp only [Option.some.injEq] at hq
      have ht2 : toggleStemMode p now name = Except.ok (q, r.2) := by rw [ht, ← hq]
      rcases toggleStemMode_stems p q now name r.2 ht2 with h1 | ⟨s, hs, h1 | h1⟩
      · rw [h1]; exact h
      · rw [h1.2.2]
        intro x hx
        rcases mem_setStem _ _ _ hx with h2 | h2
        · subst h2; exact ⟨fun _ => h1.2.1, (h s hs).2⟩
        · exact h x h2
      · rw [h1.2.2]
        intro x hx
        rcases mem_setStem _ _ _ hx with h2 | h2
        · subst h2
          exact ⟨fun hc => absurd hc (by simp), (h s hs).2⟩
        · exact h x h2

theorem runPlayer_sources (ops : List PlayerOp) :
    ∀ (p q : Player), (∀ s ∈ p.stems, (s.mode = Mode.midi → s.midiData.isSome) ∧
        (truthy s.audioSrc = true → s.audioElem.isSome)) →
      runPlayer p ops = some q →
      ∀ s ∈ q.stems, (s.mode = Mode.midi → s.midiData.isSome) ∧
        (truthy s.audioSrc = true → s.audioElem.isSome) := by
  induction ops with
  | nil =>
    intro p q h hq
    simp only [runPlayer, Option.some.injEq] at hq
    rw [← hq]; exact h
  | cons op rest ih =>
    intro p q h hq
    simp only [runPlayer] at hq
    cases ha : applyPlayerOp p op with
    | none => rw [ha] at hq; simp at hq
    | some p1 =>
      rw [ha] at hq
      exact ih p1 q (applyPlayerOp_sources p p1 op h ha) hq

/-- C6 as stated fails at the loader: for a `<Stem>` node with a timeline source and no
audio source, the record created by `loadXML` is in prerecorded mode and has no audio
handle. -/
theorem loader_prerecorded_without_handle :
    ¬ ∀ s ∈ (loadXML Player.new [midiOnlyNode]).1.stems,
      (s.mode = Mode.midi → s.midiData.isSome) ∧ (s.mode = Mode.audio → s.audioElem.isSome) := by
  intro h
  have h1 := (h (newStem midiOnlyNode) (by simp [loadXML, loadStem, setStem])).2
    (newStem_mode _)
  revert h1
  decide!

/-- C6 amended: in every state reached from stem loading through any sequence of play,
pause, toggleStemMode, changeInstrument and scheduler ticks, a stem in synthesized mode
has its timeline, and a stem in prerecorded mode has its audio handle whenever it has an
audio source. -/
theorem mode_has_backing_source (p0 : Player) (nodes : List StemNode) (ops : List PlayerOp)
    (stems : List Stem)
    (h : (runPlayer (loadXML p0 nodes).1 ops).map Player.stems = some stems)
    (s : Stem) (hs : s ∈ stems) :
    (s.mode = Mode.midi → s.midiData.isSome) ∧
      (s.mode = Mode.audio → truthy s.audioSrc = true → s.audioElem.isSome) := by
  cases hr : runPlayer (loadXML p0 nodes).1 ops with
  | none => rw [hr] at h; simp at h
  | some q =>
    rw [hr] at h
    simp only [Option.map_some', Option.some.injEq] at h
    have h0 : ∀ s ∈ (loadXML p0 nodes).1.stems, (s.mode = Mode.midi → s.midiData.isSome) ∧
        (truthy s.audioSrc = true → s.audioElem.isSome) :=
      loadXML_sources nodes [] (by simp)
    have := runPlayer_sources ops _ q h0 hr s (by rw [h]; exact hs)
    exact ⟨this.1, fun _ => this.2⟩

theorem mode_has_backing_source_witness :
    (Mode.midi = Mode.midi → (newStem midiOnlyNode).midiData.isSome) ∧
      (Mode.midi = Mode.audio → truthy (newStem midiOnlyNode).audioSrc = true →
        (newStem midiOnlyNode).audioElem.isSome) :=
  mode_has_backing_source Player.new [midiOnlyNode, fullNode]
    [PlayerOp.play 0 false, PlayerOp.toggleStemMode 0.1 "bass", PlayerOp.tick 0.2,
     PlayerOp.changeInstrument "lead" 3, PlayerOp.pause]
    [{ newStem midiOnlyNode with mode := Mode.midi }, { newStem fullNode with instId := 3 }]
    (by decide!) { newStem midiOnlyNode with mode := Mode.midi } (List.mem_cons_self _ _)

/-! ## Engine lemmas: `releaseVoice`, `stopVoice`, `monoSteal` -/

theorem releaseVoice_activeVoices (s : Xmlynth) (id : VoiceId) :
    (releaseVoice s id).activeVoices = s.activeVoices := by
  unfold releaseVoice
  split
  · rfl
  · split <;> rfl

theorem releaseVoice_monoTracker (s : Xmlynth) (id : VoiceId) :
    (releaseVoice s id).monoTracker = s.monoTracker := by
  unfold releaseVoice
  split
  · rfl
  · split <;> rfl

theorem releaseVoice_currentTime (s : Xmlynth) (id : VoiceId) :
    (releaseVoice s id).currentTime = s.currentTime := by
  unfold releaseVoice
  split
  · rfl
  · split <;> rfl

theorem releaseVoice_length (s : Xmlynth) (id : VoiceId) :
    (releaseVoice s id).voices.length = s.voices.length := by
  unfold releaseVoice
  split
  · rfl
  · split
    · rfl
    · simp

theorem releaseVoice_released_mono (s : Xmlynth) (id : VoiceId) (r : Nat)
    (h : released s r = true) : released (releaseVoice s id) r = true := by
  unfold releaseVoice
  split
  · exact h
  · rename_i ref _
    split
    · exact h
    · rename_i v hv
      unfold released at h ⊢
      simp only [List.getElem?_set]
      by_cases hr : ref = r
      · subst hr
        simp only [if_true]
        split_ifs
        · simp
        · rw [List.getElem?_eq_none (by omega)] at hv; simp at hv
      · simp only [hr, if_false]
        exact h

theorem releaseVoice_released_self (s : Xmlynth) (id : VoiceId) (ref : Nat)
    (h : s.activeVoices id = some ref) (hlt : ref < s.voices.length) :
    released (releaseVoice s id) ref = true := by
  unfold releaseVoice
  rw [h]
  simp only
  rw [List.getElem?_eq_getElem hlt]
  simp only
  unfold released
  simp [List.getElem?_set, hlt]

theorem releaseVoice_timers (s : Xmlynth) (id : VoiceId) :
    ∀ tm ∈ (releaseVoice s id).timers, tm ∈ s.timers ∨ tm.id = id := by
  intro tm h
  unfold releaseVoice at h
  split at h
  · exact Or.inl h
  · split at h
    · exact Or.inl h
    · simp only [List.mem_append, List.mem_singleton] at h
      rcases h with h | h
      · exact Or.inl h
      · right; rw [h]

theorem stopVoice_activeVoices (s : Xmlynth) (id : VoiceId) :
    (stopVoice s id).activeVoices = s.activeVoices := by
  unfold stopVoice
  split_ifs
  · exact releaseVoice_activeVoices s id
  · rfl

theorem stopVoice_monoTracker (s : Xmlynth) (id : VoiceId) :
    (stopVoice s id).monoTracker = s.monoTracker := by
  unfold stopVoice
  split_ifs
  · exact releaseVoice_monoTracker s id
  · rfl

theorem stopVoice_currentTime (s : Xmlynth) (id : VoiceId) :
    (stopVoice s id).currentTime = s.currentTime := by
  unfold stopVoice
  split_ifs
  · exact releaseVoice_currentTime s id
  · rfl

theorem stopVoice_length (s : Xmlynth) (id : VoiceId) :
    (stopVoice s id).voices.length = s.voices.length := by
  unfold stopVoice
  split_ifs
  · exact releaseVoice_length s id
  · rfl

theorem stopVoice_released_mono (s : Xmlynth) (id : VoiceId) (r : Nat)
    (h : released s r = true) : released (stopVoice s id) r = true := by
  unfold stopVoice
  split_ifs
  · exact releaseVoice_released_mono s id r h
  · exact h

theorem stopVoice_timers (s : Xmlynth) (id : VoiceId) :
    ∀ tm ∈ (stopVoice s id).timers,
      tm ∈ s.timers ∨ (tm.id = id ∧ (s.activeVoices id).isSome = true) := by
  intro tm h
  unfold stopVoice at h
  split_ifs at h with hs
  · rcases releaseVoice_timers s id tm h with h1 | h1
    · exact Or.inl h1
    · exact Or.inr ⟨h1, hs⟩
  · exact Or.inl h

theorem monoSteal_activeVoices (s : Xmlynth) (i : Int) (inst : Instrument) :
    (monoSteal s i inst).activeVoices = s.activeVoices := by
  unfold monoSteal
  split_ifs
  · split
    · exact stopVoice_activeVoices s _
    · rfl
  · rfl

theorem monoSteal_monoTracker (s : Xmlynth) (i : Int) (inst : Instrument) :
    (monoSteal s i inst).monoTracker = s.monoTracker := by
  unfold monoSteal
  split_ifs
  · split
    · exact stopVoice_monoTracker s _
    · rfl
  · rfl

theorem monoSteal_currentTime (s : Xmlynth) (i : Int) (inst : Instrument) :
    (monoSteal s i inst).currentTime = s.currentTime := by
  unfold monoSteal
  split_ifs
  · split
    · exact stopVoice_currentTime s _
    · rfl
  · rfl

theorem monoSteal_length (s : Xmlynth) (i : Int) (inst : Instrument) :
    (monoSteal s i inst).voices.length = s.voices.length := by
  unfold monoSteal
  split_ifs
  · split
    · exact stopVoice_length s _
    · rfl
  · rfl

theorem monoSteal_released_mono (s : Xmlynth) (i : Int) (inst : Instrument) (r : Nat)
    (h : released s r = true) : released (monoSteal s i inst) r = true := by
  unfold monoSteal
  split_ifs
  · split
    · exact stopVoice_released_mono s _ r h
    · exact h
  · exact h

theorem monoSteal_timers (s : Xmlynth) (i : Int) (inst : Instrument) :
    ∀ tm ∈ (monoSteal s i inst).timers,
      tm ∈ s.timers ∨ (s.activeVoices tm.id).isSome = true := by
  intro tm h
  unfold monoSteal at h
  split_ifs at h
  · split at h
    · rcases stopVoice_timers s _ tm h with h1 | ⟨h1, h2⟩
      · exact Or.inl h1
      · right; rw [h1]; exact h2
    · exact Or.inl h
  · exact Or.inl h

/-! ## The registry invariant -/

theorem released_false_of_releaseVoice (s : Xmlynth) (id : VoiceId) (r : Nat)
    (h : released (releaseVoice s id) r = false) : released s r = false := by
  cases hr : released s r with
  | false => rfl
  | true => rw [releaseVoice_released_mono s id r hr] at h; exact absurd h (by decide)

theorem RegistryOk_releaseVoice (s : Xmlynth) (id : VoiceId) (h : RegistryOk s) :
    RegistryOk (releaseVoice s id) := by
  refine ⟨?_, ?_⟩
  · intro k ref hk
    rw [releaseVoice_activeVoices] at hk
    rw [releaseVoice_length]
    exact h.1 k ref hk
  · intro k ref hk hm hr
    rw [releaseVoice_activeVoices] at hk
    rw [releaseVoice_monoTracker]
    exact h.2 k ref hk hm (released_false_of_releaseVoice s id ref hr)

theorem RegistryOk_stopVoice (s : Xmlynth) (id : VoiceId) (h : RegistryOk s) :
    RegistryOk (stopVoice s id) := by
  unfold stopVoice
  split_ifs
  · exact RegistryOk_releaseVoice s id h
  · exact h

theorem RegistryOk_monoSteal (s : Xmlynth) (i : Int) (inst : Instrument) (h : RegistryOk s) :
    RegistryOk (monoSteal s i inst) := by
  unfold monoSteal
  split_ifs
  · split
    · exact RegistryOk_stopVoice s _ h
    · exact h
  · exact h

/-- After the stealing block of `noteOn` on a monophonic instrument, every voice of that
instrument in the registry is in release. -/
theorem monoSteal_all_released (s : Xmlynth) (i : Int) (inst : Instrument)
    (h : RegistryOk s) (hi : getInstrument i = some inst) (hp : inst.poly = false)
    (id : VoiceId) (ref : Nat) (hid : s.activeVoices id = some ref) (hii : id.instIndex = i) :
    released (monoSteal s i inst) ref = true := by
  cases hr : released s ref with
  | true => exact monoSteal_released_mono s i inst ref hr
  | false =>
    have hmono : isMono id.instIndex = true := by simp [isMono, hii, hi, hp]
    have ht := h.2 id ref hid hmono hr
    rw [hii] at ht
    unfold monoSteal
    simp only [hp, Bool.not_false, if_true, ht]
    unfold stopVoice
    simp only [hid, Option.isSome_some, if_true]
    exact releaseVoice_released_self s id ref hid (h.1 id ref hid)

theorem released_append_left (s : Xmlynth) (acts : VoiceId → Option Nat)
    (tr : Int → Option VoiceId) (v : Voice) (r : Nat) (hr : r < s.voices.length) :
    released { s with voices := s.voices ++ [v], activeVoices := acts, monoTracker := tr } r =
      released s r := by
  unfold released
  simp [List.getElem?_append_left hr]

theorem RegistryOk_noteOff (s s1 : Xmlynth) (i n : Int) (h : RegistryOk s)
    (h1 : noteOff s i n = Except.ok s1) : RegistryOk s1 := by
  unfold noteOff at h1
  cases hi : getInstrument i with
  | none => rw [hi] at h1; simp at h1
  | some inst =>
    rw [hi] at h1
    simp only at h1
    cases hp : inst.poly with
    | true =>
      simp only [hp, Bool.not_true, Bool.false_eq_true, if_false] at h1
      split_ifs at h1
      · simp only [Except.ok.injEq] at h1
        rw [← h1]; exact RegistryOk_releaseVoice s _ h
      · simp only [Except.ok.injEq] at h1
        rw [← h1]; exact h
    | false =>
      simp only [hp, Bool.not_false, if_true] at h1
      -- the state with the tracking slot cleared
      have hclear : ∀ (id : VoiceId) (ref : Nat), s.activeVoices id = some ref →
          isMono id.instIndex = true → released s ref = false → id.instIndex ≠ i →
          setTracker s.monoTracker i none id.instIndex = some id := by
        intro id ref hid hm hr hne
        simp only [setTracker, hne, if_false]
        exact h.2 id ref hid hm hr
      cases ht : s.monoTracker i with
      | none =>
        rw [ht] at h1
        simp only [Except.ok.injEq] at h1
        rw [← h1]
        refine ⟨h.1, ?_⟩
        intro id ref hid hm hr
        by_cases hne : id.instIndex = i
        · have := h.2 id ref hid hm hr
          rw [hne, ht] at this
          exact absurd this (by simp)
        · exact hclear id ref hid hm hr hne
      | some vid =>
        rw [ht] at h1
        simp only at h1
        split_ifs at h1 with hsome
        · simp only [Except.ok.injEq] at h1
          rw [← h1]
          refine ⟨?_, ?_⟩
          · intro id ref hid
            rw [releaseVoice_activeVoices] at hid
            rw [releaseVoice_length]
            exact h.1 id ref hid
          · intro id ref hid hm hr
            rw [releaseVoice_activeVoices] at hid
            rw [releaseVoice_monoTracker]
            have hid' : s.activeVoices id = some ref := hid
            have hr0 : released s ref = false := by
              cases hrs : released s ref with
              | false => rfl
              | true =>
                have : released { s with monoTracker := setTracker s.monoTracker i none } ref =
                    true := hrs
                rw [releaseVoice_released_mono _ vid ref this] at hr
                exact absurd hr (by decide)
            by_cases hne : id.instIndex = i
            · exfalso
              have htr := h.2 id ref hid' hm hr0
              rw [hne, ht] at htr
              have hv : vid = id := Option.some.inj htr
              subst hv
              have := releaseVoice_released_self
                { s with monoTracker := setTracker s.monoTracker i none } vid ref hid
                (h.1 vid ref hid')
              rw [this] at hr
              exact absurd hr (by decide)
            · exact hclear id ref hid' hm hr0 hne
        · simp only [Except.ok.injEq] at h1
          rw [← h1]
          refine ⟨h.1, ?_⟩
          intro id ref hid hm hr
          have hid' : s.activeVoices id = some ref := hid
          by_cases hne : id.instIndex = i
          · exfalso
            have htr := h.2 id ref hid' hm hr
            rw [hne, ht] at htr
            have hv : vid = id := Option.some.inj htr
            subst hv
            apply hsome
            show (s.activeVoices vid).isSome = true
            rw [hid']; rfl
          · exact hclear id ref hid' hm hr hne

theorem RegistryOk_noteOn (s s1 : Xmlynth) (i n v : Int) (h : RegistryOk s)
    (h1 : noteOn s i n v = Except.ok s1) : RegistryOk s1 := by
  unfold noteOn at h1
  split_ifs at h1 with hv
  · exact RegistryOk_noteOff s s1 i n h h1
  · cases hi : getInstrument i with
    | none =>
      rw [hi] at h1
      simp only [Except.ok.injEq] at h1
      rw [← h1]; exact h
    | some inst =>
      rw [hi] at h1
      simp only at h1
      have hst := RegistryOk_monoSteal s i inst h
      have hlen := monoSteal_length s i inst
      have hact := monoSteal_activeVoices s i inst
      have htr := monoSteal_monoTracker s i inst
      -- registry part, common to both branches
      have hvalid : ∀ (id : VoiceId) (ref : Nat),
          setVoice (monoSteal s i inst).activeVoices ⟨i, n⟩
            (some (monoSteal s i inst).voices.length) id = some ref →
          (id = ⟨i, n⟩ ∧ ref = (monoSteal s i inst).voices.length) ∨
            (id ≠ ⟨i, n⟩ ∧ (monoSteal s i inst).activeVoices id = some ref ∧
              ref < (monoSteal s i inst).voices.length) := by
        intro id ref hid
        unfold setVoice at hid
        split_ifs at hid with hk
        · exact Or.inl ⟨hk, (Option.some.inj hid).symm⟩
        · exact Or.inr ⟨hk, hid, hst.1 id ref hid⟩
      cases hp : inst.poly with
      | true =>
        simp only [storeVoice, hp, Bool.not_true, Bool.false_eq_true, if_false, Except.ok.injEq] at h1
        rw [← h1]
        refine ⟨?_, ?_⟩
        · intro id ref hid
          simp only [List.length_append, List.length_singleton]
          rcases hvalid id ref hid with ⟨_, h2⟩ | ⟨_, _, h2⟩ <;> omega
        · intro id ref hid hm hr
          rcases hvalid id ref hid with ⟨h2, _⟩ | ⟨_, h2, h3⟩
          · rw [h2] at hm
            simp [isMono, hi, hp] at hm
          · rw [released_append_left _ _ _ _ _ h3] at hr
            exact hst.2 id ref h2 hm hr
      | false =>
        simp only [storeVoice, hp, Bool.not_false, if_true, Except.ok.injEq] at h1
        rw [← h1]
        refine ⟨?_, ?_⟩
        · intro id ref hid
          simp only [List.length_append, List.length_singleton]
          rcases hvalid id ref hid with ⟨_, h2⟩ | ⟨_, _, h2⟩ <;> omega
        · intro id ref hid hm hr
          rcases hvalid id ref hid with ⟨h2, _⟩ | ⟨hne, h2, h3⟩
          · rw [h2]
            simp [setTracker]
          · rw [released_append_left _ _ _ _ _ h3] at hr
            by_cases hii : id.instIndex = i
            · exfalso
              rw [hact] at h2
              have := monoSteal_all_released s i inst h hi hp id ref h2 hii
              rw [this] at hr
              exact absurd hr (by decide)
            · simp only [setTracker, hii, if_false]
              exact hst.2 id ref h2 hm hr

theorem RegistryOk_fireTimer (s : Xmlynth) (k : Nat) (h : RegistryOk s) :
    RegistryOk (fireTimer s k) := by
  unfold fireTimer
  split
  · exact h
  · rename_i tm _
    refine ⟨?_, ?_⟩
    · intro id ref hid
      simp only [setVoice] at hid
      split_ifs at hid
      exact h.1 id ref hid
    · intro id ref hid hm hr
      simp only [setVoice] at hid
      split_ifs at hid
      exact h.2 id ref hid hm hr

theorem RegistryOk_applySynthOp (s s1 : Xmlynth) (op : SynthOp) (h : RegistryOk s)
    (h1 : applySynthOp s op = some s1) : RegistryOk s1 := by
  cases op with
  | noteOn i n v =>
    simp only [applySynthOp] at h1
    cases hr : noteOn s i n v with
    | error e => rw [hr] at h1; simp at h1
    | ok s2 =>
      rw [hr] at h1
      simp only [Option.some.injEq] at h1
      rw [← h1]; exact RegistryOk_noteOn s s2 i n v h hr
  | noteOff i n =>
    simp only [applySynthOp] at h1
    cases hr : noteOff s i n with
    | error e => rw [hr] at h1; simp at h1
    | ok s2 =>
      rw [hr] at h1
      simp only [Option.some.injEq] at h1
      rw [← h1]; exact RegistryOk_noteOff s s2 i n h hr
  | clock t =>
    simp only [applySynthOp] at h1
    split_ifs at h1
    simp only [Option.some.injEq] at h1
    rw [← h1]; exact h
  | fire k =>
    simp only [applySynthOp] at h1
    split at h1
    · simp at h1
    · split_ifs at h1
      simp only [Option.some.injEq] at h1
      rw [← h1]; exact RegistryOk_fireTimer s k h

theorem RegistryOk_runSynth (ops : List SynthOp) :
    ∀ (s s1 : Xmlynth), RegistryOk s → runSynth s ops = some s1 → RegistryOk s1 := by
  induction ops with
  | nil =>
    intro s s1 h h1
    simp only [runSynth, Option.some.injEq] at h1
    rw [← h1]; exact h
  | cons op rest ih =>
    intro s s1 h h1
    simp only [runSynth] at h1
    cases ha : applySynthOp s op with
    | none => rw [ha] at h1; simp at h1
    | some s2 =>
      rw [ha] at h1
      exact ih s2 s1 (RegistryOk_applySynthOp s s2 op h ha) h1

theorem RegistryOk_new : RegistryOk Xmlynth.new := by
  refine ⟨?_, ?_⟩ <;> intro id ref hid <;> simp [Xmlynth.new] at hid

theorem runSynth_stealTrace :
    runSynth Xmlynth.new stealTrace = some ((runSynth Xmlynth.new stealTrace).getD Xmlynth.new) := by
  have h : (runSynth Xmlynth.new stealTrace).isSome = true := by decide!
  obtain ⟨x, hx⟩ := Option.isSome_iff_exists.mp h
  rw [hx]; rfl

/-- C4 as stated fails: after `noteOn(5,60,100)` and `noteOn(5,64,100)` the registry holds
two voices of the monophonic instrument 5, the released one under `5-60` and the new one
under `5-64`. -/
theorem registry_holds_two_mono_voices :
    ¬ ∀ (s : Xmlynth), runSynth Xmlynth.new stealTrace = some s →
      ∀ (id1 id2 : VoiceId) (r1 r2 : Nat), s.activeVoices id1 = some r1 →
        s.activeVoices id2 = some r2 → id1.instIndex = 5 → id2.instIndex = 5 → id1 = id2 := by
  intro h
  have := h _ runSynth_stealTrace ⟨5, 60⟩ ⟨5, 64⟩ 0 1 (by decide!) (by decide!) rfl rfl
  exact absurd this (by decide)

/-- C4 amended: in every state reached from the constructor by `noteOn` and `noteOff`
calls, clock steps and firings of due removal timers, two registry entries under different
keys of one monophonic instrument are never both active: at least one of the two voices is
in release. -/
theorem mono_at_most_one_active_voice (ops : List SynthOp) (s : Xmlynth)
    (h : runSynth Xmlynth.new ops = some s) (id1 id2 : VoiceId) (r1 r2 : Nat)
    (hm : isMono id1.instIndex = true) (hi : id2.instIndex = id1.instIndex)
    (h1 : s.activeVoices id1 = some r1) (h2 : s.activeVoices id2 = some r2)
    (hne : id1 ≠ id2) :
    released s r1 = true ∨ released s r2 = true := by
  have hok := RegistryOk_runSynth ops _ s RegistryOk_new h
  cases hr1 : released s r1 with
  | true => exact Or.inl rfl
  | false =>
    cases hr2 : released s r2 with
    | true => exact Or.inr rfl
    | false =>
      exfalso
      have t1 := hok.2 id1 r1 h1 hm hr1
      have t2 := hok.2 id2 r2 h2 (by rw [hi]; exact hm) hr2
      rw [hi, t1] at t2
      exact hne (Option.some.inj t2)

theorem mono_at_most_one_active_voice_witness :
    released ((runSynth Xmlynth.new stealTrace).getD Xmlynth.new) 0 = true ∨
      released ((runSynth Xmlynth.new stealTrace).getD Xmlynth.new) 1 = true :=
  mono_at_most_one_active_voice stealTrace _ runSynth_stealTrace ⟨5, 60⟩ ⟨5, 64⟩ 0 1
    (by decide) rfl (by decide!) (by decide!) (by decide)

/-! ## Timers firing on time -/

theorem fireDue_none (t : ℚ) (k : VoiceId) :
    ∀ (timers : List Timer) (reg : VoiceId → Option Nat), reg k = none →
      fireDue t timers reg k = none := by
  intro timers
  induction timers with
  | nil => intro reg h; exact h
  | cons tm rest ih =>
    intro reg h
    unfold fireDue
    split_ifs
    · apply ih
      simp only [setVoice]
      split_ifs <;> simp [h]
    · exact ih reg h

theorem fireDue_other (t : ℚ) (k : VoiceId) :
    ∀ (timers : List Timer) (reg : VoiceId → Option Nat),
      (∀ tm ∈ timers, tm.due ≤ t → tm.id ≠ k) → fireDue t timers reg k = reg k := by
  intro timers
  induction timers with
  | nil => intro reg _; rfl
  | cons tm rest ih =>
    intro reg h
    have hrest : ∀ x ∈ rest, x.due ≤ t → x.id ≠ k :=
      fun x hx => h x (List.mem_cons_of_mem _ hx)
    unfold fireDue
    split_ifs with hd
    · rw [ih _ hrest]
      have := h tm (List.mem_cons_self _ _) hd
      simp [setVoice, Ne.symm this]
    · exact ih reg hrest

theorem fireDue_hit (t : ℚ) (k : VoiceId) :
    ∀ (timers : List Timer) (reg : VoiceId → Option Nat),
      (∃ tm ∈ timers, tm.due ≤ t ∧ tm.id = k) → fireDue t timers reg k = none := by
  intro timers
  induction timers with
  | nil => intro reg h; obtain ⟨tm, hm, _⟩ := h; simp at hm
  | cons tm rest ih =>
    intro reg h
    obtain ⟨x, hx, hd, hk⟩ := h
    unfold fireDue
    rcases List.mem_cons.mp hx with h1 | h1
    · subst h1
      simp only [hd, if_true]
      apply fireDue_none
      simp [setVoice, hk]
    · split_ifs
      · exact ih _ ⟨x, h1, hd, hk⟩
      · exact ih _ ⟨x, h1, hd, hk⟩

/-! ## `noteOn` followed by `noteOff` -/

theorem getInstrument_known (i : Int) (h : 0 ≤ i ∧ i < 10) : ∃ inst, getInstrument i = some inst := by
  unfold getInstrument
  simp only [h.1, if_true]
  have : i.toNat < instruments.length := by rw [instruments_length]; omega
  exact ⟨instruments[i.toNat], List.getElem?_eq_getElem this⟩

/-- The state after a `noteOn` with non-zero velocity on a known instrument. -/
theorem noteOn_registers (s : Xmlynth) (i n v : Int) (inst : Instrument) (hv : v ≠ 0)
    (hi : getInstrument i = some inst) :
    ∃ s1, noteOn s i n v = Except.ok s1 ∧
      s1.activeVoices ⟨i, n⟩ = some s.voices.length ∧
      (∀ id, id ≠ ⟨i, n⟩ → s1.activeVoices id = s.activeVoices id) ∧
      s1.voices.length = s.voices.length + 1 ∧
      (∃ vo, s1.voices[s.voices.length]? = some vo ∧ vo.inst = inst ∧ vo.note = n ∧
        vo.stopAt = none ∧ vo.startTime = s.currentTime) ∧
      (∀ r, r < s.voices.length → released s r = true → released s1 r = true) ∧
      (inst.poly = false → s1.monoTracker i = some ⟨i, n⟩) ∧
      s1.currentTime = s.currentTime ∧
      (∀ tm ∈ s1.timers, tm ∈ s.timers ∨ (s.activeVoices tm.id).isSome = true) ∧
      (∀ tm ∈ (monoSteal s i inst).timers, tm ∈ s1.timers) ∧
      (∀ r, r < s.voices.length → s1.voices[r]? = (monoSteal s i inst).voices[r]?) := by
  have hlen := monoSteal_length s i inst
  have hact := monoSteal_activeVoices s i inst
  have hct := monoSteal_currentTime s i inst
  have e1 : ∀ vo, (storeVoice (monoSteal s i inst) i n inst vo).voices =
      (monoSteal s i inst).voices ++ [vo] := by
    intro vo; unfold storeVoice; split_ifs <;> rfl
  have e2 : ∀ vo, (storeVoice (monoSteal s i inst) i n inst vo).activeVoices =
      setVoice (monoSteal s i inst).activeVoices ⟨i, n⟩
        (some (monoSteal s i inst).voices.length) := by
    intro vo; unfold storeVoice; split_ifs <;> rfl
  have e3 : ∀ vo, (storeVoice (monoSteal s i inst) i n inst vo).currentTime =
      (monoSteal s i inst).currentTime := by
    intro vo; unfold storeVoice; split_ifs <;> rfl
  have e4 : ∀ vo, (storeVoice (monoSteal s i inst) i n inst vo).timers =
      (monoSteal s i inst).timers := by
    intro vo; unfold storeVoice; split_ifs <;> rfl
  have e5 : ∀ vo, inst.poly = false →
      (storeVoice (monoSteal s i inst) i n inst vo).monoTracker i = some ⟨i, n⟩ := by
    intro vo hp; unfold storeVoice; simp [hp, setTracker]
  refine ⟨storeVoice (monoSteal s i inst) i n inst
    (buildVoice inst (monoSteal s i inst).currentTime n v), ?_, ?_, ?_, ?_, ?_, ?_, e5 _, ?_, ?_, ?_,
    ?_⟩
  · unfold noteOn
    simp only [hv, if_false, hi]
  · rw [e2]; simp [setVoice, hlen]
  · intro id hne
    rw [e2]; simp [setVoice, hne, hact]
  · rw [e1]; simp [hlen]
  · refine ⟨buildVoice inst (monoSteal s i inst).currentTime n v, ?_, rfl, rfl, rfl, ?_⟩
    · rw [e1, ← hlen]
      simp
    · simp [buildVoice, hct]
  · intro r hr hrel
    have := monoSteal_released_mono s i inst r hrel
    unfold released at this ⊢
    rw [e1, List.getElem?_append_left (by rw [hlen]; exact hr)]
    exact this
  · rw [e3, hct]
  · rw [e4]; exact monoSteal_timers s i inst
  · rw [e4]; exact fun tm h => h
  · intro r hr
    rw [e1, List.getElem?_append_left (by rw [hlen]; exact hr)]

theorem releaseVoice_eq (s : Xmlynth) (id : VoiceId) (ref : Nat) (v : Voice)
    (h : s.activeVoices id = some ref) (hv : s.voices[ref]? = some v) :
    (releaseVoice s id).timers =
        s.timers ++ [⟨s.currentTime + (v.inst.adsr.r + 0.2), id⟩] ∧
      (releaseVoice s id).voices[ref]? = some
        { v with
          envGain := cancelScheduledValues v.envGain s.currentTime ++
            [Automation.holdAtTime s.currentTime,
             Automation.exponentialRamp 0.001 (s.currentTime + v.inst.adsr.r)],
          stopAt := some (s.currentTime + v.inst.adsr.r + 0.1) } := by
  have hlt : ref < s.voices.length := by
    by_contra hc
    rw [List.getElem?_eq_none (by omega)] at hv
    simp at hv
  unfold releaseVoice
  rw [h]
  simp only
  rw [hv]
  simp [List.getElem?_set, hlt]

theorem noteOff_releases (s : Xmlynth) (i n : Int) (inst : Instrument) (ref : Nat) (v : Voice)
    (hi : getInstrument i = some inst) (hreg : s.activeVoices ⟨i, n⟩ = some ref)
    (hv : s.voices[ref]? = some v) (htr : inst.poly = false → s.monoTracker i = some ⟨i, n⟩) :
    ∃ s3, noteOff s i n = Except.ok s3 ∧ s3.activeVoices = s.activeVoices ∧
      s3.timers = s.timers ++ [⟨s.currentTime + (v.inst.adsr.r + 0.2), ⟨i, n⟩⟩] ∧
      s3.currentTime = s.currentTime := by
  cases hp : inst.poly with
  | true =>
    refine ⟨releaseVoice s ⟨i, n⟩, ?_, releaseVoice_activeVoices s _,
      (releaseVoice_eq s _ ref v hreg hv).1, releaseVoice_currentTime s _⟩
    simp [noteOff, hi, hp, hreg]
  | false =>
    refine ⟨releaseVoice { s with monoTracker := setTracker s.monoTracker i none } ⟨i, n⟩,
      ?_, ?_, ?_, ?_⟩
    · simp [noteOff, hi, hp, htr hp, hreg]
    · rw [releaseVoice_activeVoices]
    · exact (releaseVoice_eq { s with monoTracker := setTracker s.monoTracker i none } _ ref v
        hreg hv).1
    · rw [releaseVoice_currentTime]

/-- C8: on a known instrument, from a state with no voice and no pending removal timer under
the key, `noteOn` with non-zero velocity followed by `noteOff` at `tOff` (timers firing
on time, no other call in between) keeps the voice in the registry at every time before
`tOff + r + 0.2`, so in particular before `tOff + r`, and the voice is out of the registry
from `tOff + r + 0.2` on, where `r` is the release duration `adsr.r` of the patch. -/
theorem noteOn_noteOff_registry_window (s : Xmlynth) (i p v : Int) (tOff : ℚ)
    (hi : 0 ≤ i ∧ i < 10) (hv : v ≠ 0) (hreg : s.activeVoices ⟨i, p⟩ = none)
    (htm : ∀ tm ∈ s.timers, tm.id ≠ ⟨i, p⟩) :
    ∃ inst s1 s3, getInstrument i = some inst ∧ noteOn s i p v = Except.ok s1 ∧
      noteOff (advanceTo s1 tOff) i p = Except.ok s3 ∧
      (∀ t, (advanceTo s1 t).activeVoices ⟨i, p⟩ = some s.voices.length) ∧
      (∀ t, t < tOff + inst.adsr.r + 0.2 →
        (advanceTo s3 t).activeVoices ⟨i, p⟩ = some s.voices.length) ∧
      (∀ t, tOff + inst.adsr.r + 0.2 ≤ t → (advanceTo s3 t).activeVoices ⟨i, p⟩ = none) := by
  obtain ⟨inst, hinst⟩ := getInstrument_known i hi
  obtain ⟨s1, h1, hkey, _, _, ⟨vo, hvo, hvinst, _, _, _⟩, _, htrk, _, htimers, _⟩ :=
    noteOn_registers s i p v inst hv hinst
  have hs1tm : ∀ tm ∈ s1.timers, tm.id ≠ ⟨i, p⟩ := by
    intro tm hmem
    rcases htimers tm hmem with h | h
    · exact htm tm h
    · intro hc
      rw [hc, hreg] at h
      simp at h
  have hbefore : ∀ t, (advanceTo s1 t).activeVoices ⟨i, p⟩ = some s.voices.length := by
    intro t
    show fireDue t s1.timers s1.activeVoices ⟨i, p⟩ = _
    rw [fireDue_other t ⟨i, p⟩ s1.timers s1.activeVoices (fun tm hm _ => hs1tm tm hm)]
    exact hkey
  obtain ⟨s3, h3, hact3, htm3, _⟩ := noteOff_releases (advanceTo s1 tOff) i p inst
    s.voices.length vo hinst (hbefore tOff) hvo htrk
  have hdue : (advanceTo s1 tOff).currentTime + (vo.inst.adsr.r + 0.2) =
      tOff + inst.adsr.r + 0.2 := by
    rw [hvinst]
    show tOff + (inst.adsr.r + 0.2) = _
    ring
  rw [hdue] at htm3
  have hs2tm : ∀ tm ∈ (advanceTo s1 tOff).timers, tm.id ≠ ⟨i, p⟩ := by
    intro tm hmem
    exact hs1tm tm (List.mem_of_mem_filter hmem)
  refine ⟨inst, s1, s3, hinst, h1, h3, hbefore, ?_, ?_⟩
  · intro t ht
    show fireDue t s3.timers s3.activeVoices ⟨i, p⟩ = _
    rw [fireDue_other t ⟨i, p⟩ s3.timers s3.activeVoices, hact3]
    · exact hbefore tOff
    · intro tm hmem hd
      rw [htm3] at hmem
      rcases List.mem_append.mp hmem with h | h
      · exact hs2tm tm h
      · exfalso
        rw [List.mem_singleton.mp h] at hd
        simp only at hd
        linarith
  · intro t ht
    show fireDue t s3.timers s3.activeVoices ⟨i, p⟩ = none
    apply fireDue_hit
    refine ⟨⟨tOff + inst.adsr.r + 0.2, ⟨i, p⟩⟩, ?_, ht, rfl⟩
    rw [htm3]
    simp

theorem noteOn_noteOff_registry_window_witness :
    ∃ s1 s3, noteOn Xmlynth.new 0 60 100 = Except.ok s1 ∧
      noteOff (advanceTo s1 1) 0 60 = Except.ok s3 ∧
      (advanceTo s3 1.69).activeVoices ⟨0, 60⟩ = some 0 ∧
      (advanceTo s3 1.7).activeVoices ⟨0, 60⟩ = none := by
  obtain ⟨inst, s1, s3, hinst, h1, h3, _, h4, h5⟩ :=
    noteOn_noteOff_registry_window Xmlynth.new 0 60 100 1 (by decide) (by decide) rfl
      (by intro tm h; simp [Xmlynth.new] at h)
  have hr : inst.adsr.r = 0.5 := by
    have h0 : getInstrument 0 = some instruments[0] := rfl
    rw [h0] at hinst
    rw [← Option.some.inj hinst]
    rfl
  rw [hr] at h4 h5
  exact ⟨s1, s3, h1, h3, h4 1.69 (by norm_num), h5 1.7 (by norm_num)⟩

/-! ## Voice stealing on a monophonic instrument -/

theorem getInstrument_mono (m : Int) (hm : 5 ≤ m ∧ m ≤ 9) :
    ∃ inst, getInstrument m = some inst ∧ inst.poly = false := by
  obtain ⟨h1, h2⟩ := hm
  interval_cases m
  · exact ⟨_, rfl, rfl⟩
  · exact ⟨_, rfl, rfl⟩
  · exact ⟨_, rfl, rfl⟩
  · exact ⟨_, rfl, rfl⟩
  · exact ⟨_, rfl, rfl⟩

/-- Voice stealing when no timer callback runs between the two calls: on a monophonic
instrument `m`, after `noteOn(m,p,v1)` and then, at clock time `t2`, `noteOn(m,q,v2)` with
non-zero velocities and nothing in between, not even the callback of a removal timer, the
tracker of `m` holds the key of the voice created for `q`, which is in the registry and not
in release, and the voice created for `p` has been put into release at `t2`: its envelope
ends with the release ramp towards `0.001` at `t2 + r`, its oscillators stop at
`t2 + r + 0.1`, and its registry-removal timer is pending with due time `t2 + r + 0.2`. -/
theorem mono_retrigger_steals (s : Xmlynth) (m p q v1 v2 : Int) (t2 : ℚ)
    (hm : 5 ≤ m ∧ m ≤ 9) (hv1 : v1 ≠ 0) (hv2 : v2 ≠ 0) :
    ∃ inst s1 s2 vp vq, getInstrument m = some inst ∧ noteOn s m p v1 = Except.ok s1 ∧
      noteOn { s1 with currentTime := t2 } m q v2 = Except.ok s2 ∧
      s2.monoTracker m = some ⟨m, q⟩ ∧
      s2.activeVoices ⟨m, q⟩ = some (s.voices.length + 1) ∧
      s2.voices[s.voices.length + 1]? = some vq ∧ vq.note = q ∧ vq.stopAt = none ∧
      s2.voices[s.voices.length]? = some vp ∧ vp.note = p ∧
      vp.stopAt = some (t2 + inst.adsr.r + 0.1) ∧
      (∃ pre, vp.envGain = pre ++ [Automation.holdAtTime t2,
        Automation.exponentialRamp 0.001 (t2 + inst.adsr.r)]) ∧
      (⟨t2 + (inst.adsr.r + 0.2), ⟨m, p⟩⟩ : Timer) ∈ s2.timers := by
  obtain ⟨inst, hinst, hpoly⟩ := getInstrument_mono m hm
  obtain ⟨s1, h1, hkey1, _, hlen1, ⟨vo, hvo, hvoinst, hvonote, _, _⟩, _, htr1, _, _, _, _⟩ :=
    noteOn_registers s m p v1 inst hv1 hinst
  have hkey1' : ({ s1 with currentTime := t2 } : Xmlynth).activeVoices ⟨m, p⟩ =
      some s.voices.length := hkey1
  have hvo' : ({ s1 with currentTime := t2 } : Xmlynth).voices[s.voices.length]? = some vo := hvo
  obtain ⟨s2, h2, hkey2, _, _, ⟨vq, hvq, _, hvqnote, hvqstop, _⟩, _, htr2, _, _, htm2, hold2⟩ :=
    noteOn_registers { s1 with currentTime := t2 } m q v2 inst hv2 hinst
  have hsteal : monoSteal { s1 with currentTime := t2 } m inst =
      releaseVoice { s1 with currentTime := t2 } ⟨m, p⟩ := by
    unfold monoSteal
    simp only [hpoly, Bool.not_false, if_true, htr1 hpoly]
    unfold stopVoice
    simp [hkey1]
  obtain ⟨hrt, hrv⟩ := releaseVoice_eq { s1 with currentTime := t2 } ⟨m, p⟩ s.voices.length vo
    hkey1' hvo'
  have hl : ({ s1 with currentTime := t2 } : Xmlynth).voices.length = s.voices.length + 1 :=
    hlen1
  rw [hl] at hkey2 hvq
  have hvp := hold2 s.voices.length (by rw [hl]; omega)
  rw [hsteal, hrv] at hvp
  refine ⟨inst, s1, s2, _, vq, hinst, h1, h2, htr2 hpoly, hkey2, hvq, hvqnote, hvqstop, hvp,
    hvonote, ?_, ⟨cancelScheduledValues vo.envGain t2, ?_⟩, ?_⟩
  · simp [hvoinst]
  · simp only [hvoinst]
  · apply htm2
    rw [hsteal, hrt, hvoinst]
    simp

theorem mono_retrigger_steals_witness :
    ∃ inst s1 s2 vp vq, getInstrument 5 = some inst ∧
      noteOn Xmlynth.new 5 60 100 = Except.ok s1 ∧
      noteOn { s1 with currentTime := 0.25 } 5 64 100 = Except.ok s2 ∧
      s2.monoTracker 5 = some ⟨5, 64⟩ ∧
      s2.activeVoices ⟨5, 64⟩ = some (Xmlynth.new.voices.length + 1) ∧
      s2.voices[Xmlynth.new.voices.length + 1]? = some vq ∧ vq.note = 64 ∧ vq.stopAt = none ∧
      s2.voices[Xmlynth.new.voices.length]? = some vp ∧ vp.note = 60 ∧
      vp.stopAt = some (0.25 + inst.adsr.r + 0.1) ∧
      (∃ pre, vp.envGain = pre ++ [Automation.holdAtTime 0.25,
        Automation.exponentialRamp 0.001 (0.25 + inst.adsr.r)]) ∧
      (⟨0.25 + (inst.adsr.r + 0.2), ⟨5, 60⟩⟩ : Timer) ∈ s2.timers :=
  mono_retrigger_steals Xmlynth.new 5 60 64 100 100 0.25 (by decide) (by decide) (by decide)

/-- C10 (what the code does): on the monophonic instrument 5, `noteOn(5,60,100)` at 0 and
again at 0.1 leave the second voice (reference 1) under the key 5-60 and the removal timer
of the first, stolen voice pending under the same key with due time 0.4. When that timer
runs at 0.4 it deletes the key, so the second voice leaves the registry while it sounds and
the tracker still names its key. The following `noteOn(5,64,100)`, with no `noteOff`
anywhere, looks the tracked key up, finds nothing and releases nothing: afterwards the
tracker designates the voice created for pitch 64 (reference 2), but the voice created for
pitch 60 by the call before it has not been put into release and no removal timer is
pending for it. -/
theorem stale_timer_defeats_voice_stealing :
    (runSynth Xmlynth.new (staleTimerTrace.take 4)).map
        (fun s => (s.monoTracker 5, s.activeVoices ⟨5, 60⟩, released s 0, released s 1)) =
      some (some ⟨5, 60⟩, some 1, true, false) ∧
    (runSynth Xmlynth.new (staleTimerTrace.take 4)).map
        (fun s => (s.timers, s.currentTime)) = some ([⟨0.4, ⟨5, 60⟩⟩], 0.4) ∧
    (runSynth Xmlynth.new (staleTimerTrace.take 5)).map
        (fun s => (s.monoTracker 5, s.activeVoices ⟨5, 60⟩, released s 1, s.timers.length)) =
      some (some ⟨5, 60⟩, none, false, 0) ∧
    (runSynth Xmlynth.new staleTimerTrace).map
        (fun s => (s.monoTracker 5, s.activeVoices ⟨5, 64⟩, s.activeVoices ⟨5, 60⟩,
          s.voices.map Voice.note)) =
      some (some ⟨5, 64⟩, some 2, none, [60, 60, 64]) ∧
    (runSynth Xmlynth.new staleTimerTrace).map
        (fun s => (released s 0, released s 1, released s 2, s.timers.length)) =
      some (true, false, false, 0) := by
  refine ⟨?_, ?_, ?_, ?_, ?_⟩ <;> decide!

/-! ## Velocity zero -/

/-- C11: for every engine state, instrument index (known or not) and pitch, `noteOn` with
velocity 0 has the outcome of `noteOff`: the same error, or the same resulting state, that
is the same registry, tracker, voices with their release automation, and pending timers. -/
theorem noteOn_zero_velocity_eq_noteOff (s : Xmlynth) (i p : Int) :
    noteOn s i p 0 = noteOff s i p := by
  simp [noteOn]

/-! ## Filter sweep -/

theorem noteOn_voice (s : Xmlynth) (i n v : Int) (inst : Instrument) (hv : v ≠ 0)
    (hi : getInstrument i = some inst) :
    ∃ s1, noteOn s i n v = Except.ok s1 ∧
      s1.voices[s.voices.length]? = some (buildVoice inst s.currentTime n v) := by
  refine ⟨storeVoice (monoSteal s i inst) i n inst
    (buildVoice inst (monoSteal s i inst).currentTime n v), ?_, ?_⟩
  · unfold noteOn
    simp only [hv, if_false, hi]
  · have e1 : (storeVoice (monoSteal s i inst) i n inst
        (buildVoice inst (monoSteal s i inst).currentTime n v)).voices =
        (monoSteal s i inst).voices ++
          [buildVoice inst (monoSteal s i inst).currentTime n v] := by
      unfold storeVoice; split_ifs <;> rfl
    rw [e1, ← monoSteal_length s i inst, monoSteal_currentTime]
    simp

/-- C12 (what the code does): for every patch, `noteOn` at clock time `now` schedules the
filter cutoff at the base frequency at `now`, at 1.5 times the base at `now + a`, and back
at the base at `now + d`, the decay duration counted from `now` and not from the end of
the attack; the amplitude envelope has its peak at `now + a` and its sustain target at
`now + a + d`. -/
theorem filter_sweep_schedule (s : Xmlynth) (i n v : Int) (inst : Instrument) (hv : v ≠ 0)
    (hi : getInstrument i = some inst) :
    ∃ s1 vo, noteOn s i n v = Except.ok s1 ∧ s1.voices[s.voices.length]? = some vo ∧
      vo.filterFreq =
        [Automation.setValueAtTime inst.filter.freq s.currentTime,
         Automation.exponentialRamp (inst.filter.freq * 1.5) (s.currentTime + inst.adsr.a),
         Automation.exponentialRamp inst.filter.freq (s.currentTime + inst.adsr.d)] ∧
      vo.envGain =
        [Automation.setValueAtTime 0 s.currentTime,
         Automation.linearRamp (v / 127) (s.currentTime + inst.adsr.a),
         Automation.exponentialRamp (v / 127 * inst.adsr.s + 0.01)
           (s.currentTime + inst.adsr.a + inst.adsr.d)] := by
  obtain ⟨s1, h1, h2⟩ := noteOn_voice s i n v inst hv hi
  exact ⟨s1, _, h1, h2, rfl, rfl⟩

theorem filter_sweep_schedule_witness :
    (∃ s1 vo, noteOn Xmlynth.new 2 60 100 = Except.ok s1 ∧ s1.voices[0]? = some vo ∧
      vo.filterFreq =
        [Automation.setValueAtTime 800 0, Automation.exponentialRamp 1200 0.6,
         Automation.exponentialRamp 800 0.2] ∧
      vo.envGain =
        [Automation.setValueAtTime 0 0, Automation.linearRamp (100 / 127) 0.6,
         Automation.exponentialRamp (100 / 127 * 0.8 + 0.01) 0.8]) ∧
    (instruments.filter (fun p => decide (p.adsr.d < p.adsr.a))).map Instrument.name =
      ["Dark Choir", "Flute Solo"] ∧
    (instruments.filter (fun p => decide (p.adsr.d = p.adsr.a + p.adsr.d))).map
      Instrument.name = [] := by
  refine ⟨?_, by decide!, by decide!⟩
  obtain ⟨s1, vo, h1, h2, h3, h4⟩ :=
    filter_sweep_schedule Xmlynth.new 2 60 100 instruments[2] (by decide) rfl
  refine ⟨s1, vo, h1, h2, ?_, ?_⟩
  · rw [h3]
    simp [instruments, Xmlynth.new]
    norm_num
  · rw [h4]
    simp [instruments, Xmlynth.new]
    norm_num

/-! ## Consecutive ticks that arrive on time -/

theorem scheduler_isPlaying (p : Player) (now : ℚ) :
    (scheduler p now).1.isPlaying = p.isPlaying := by
  unfold scheduler
  split_ifs <;> rfl

theorem scheduler_startTime (p : Player) (now : ℚ) :
    (scheduler p now).1.startTime = p.startTime := by
  unfold scheduler
  split_ifs <;> rfl

/-- On a timeline sorted by timestamp, the events of two adjacent windows, one after the
other, are the events of the joined window. -/
theorem filter_window_append (l : List NoteEvent) (hs : l.Pairwise (fun x y => x.t ≤ y.t))
    (a b c : ℚ) (hab : a ≤ b) (hbc : b ≤ c) :
    l.filter (fun e => decide (a ≤ e.t ∧ e.t < b)) ++
      l.filter (fun e => decide (b ≤ e.t ∧ e.t < c)) =
      l.filter (fun e => decide (a ≤ e.t ∧ e.t < c)) := by
  induction l with
  | nil => simp
  | cons e rest ih =>
    have hr := ih (List.Pairwise.of_cons hs)
    have hrel : ∀ x ∈ rest, e.t ≤ x.t := fun x hx => List.rel_of_pairwise_cons hs hx
    by_cases h1 : e.t < a
    · have d1 : decide (a ≤ e.t ∧ e.t < b) = false :=
        decide_eq_false (fun h => absurd h.1 (not_le.mpr h1))
      have d2 : decide (b ≤ e.t ∧ e.t < c) = false :=
        decide_eq_false (fun h => absurd (le_trans hab h.1) (not_le.mpr h1))
      have d3 : decide (a ≤ e.t ∧ e.t < c) = false :=
        decide_eq_false (fun h => absurd h.1 (not_le.mpr h1))
      simp only [List.filter_cons, d1, d2, d3, Bool.false_eq_true, if_false]
      exact hr
    · have ha : a ≤ e.t := not_lt.mp h1
      by_cases h2 : e.t < b
      · have d1 : decide (a ≤ e.t ∧ e.t < b) = true := decide_eq_true ⟨ha, h2⟩
        have d2 : decide (b ≤ e.t ∧ e.t < c) = false :=
          decide_eq_false (fun h => absurd h.1 (not_le.mpr h2))
        have d3 : decide (a ≤ e.t ∧ e.t < c) = true :=
          decide_eq_true ⟨ha, lt_of_lt_of_le h2 hbc⟩
        simp only [List.filter_cons, d1, d2, d3, Bool.false_eq_true, if_true, if_false,
          List.cons_append]
        rw [hr]
      · have hb : b ≤ e.t := not_lt.mp h2
        have d1 : decide (a ≤ e.t ∧ e.t < b) = false := decide_eq_false (fun h => h2 h.2)
        have hnil : rest.filter (fun e => decide (a ≤ e.t ∧ e.t < b)) = [] := by
          rw [List.filter_eq_nil_iff]
          intro x hx
          have := hrel x hx
          simp only [decide_eq_true_eq, not_and, not_lt]
          intro _
          linarith
        rw [hnil, List.nil_append] at hr
        by_cases h3 : e.t < c
        · have d2 : decide (b ≤ e.t ∧ e.t < c) = true := decide_eq_true ⟨hb, h3⟩
          have d3 : decide (a ≤ e.t ∧ e.t < c) = true := decide_eq_true ⟨ha, h3⟩
          simp only [List.filter_cons, d1, d2, d3, Bool.false_eq_true, if_true, if_false,
            hnil, List.nil_append]
          rw [hr]
        · have d2 : decide (b ≤ e.t ∧ e.t < c) = false := decide_eq_false (fun h => h3 h.2)
          have d3 : decide (a ≤ e.t ∧ e.t < c) = false := decide_eq_false (fun h => h3 h.2)
          simp only [List.filter_cons, d1, d2, d3, Bool.false_eq_true, if_false,
            hnil, List.nil_append]
          exact hr

/-- A tick whose cursor stands at the first event with timestamp at least `L`, where `L`
lies between the song time `T` and the window end `W` that the tick computes: the calls are
the events of the window from `L` to `W`, and the cursor moves to the first event with
timestamp at least `W`. -/
theorem scheduler_tick_from_bound (p : Player) (now L : ℚ) (s : Stem) (tl : List NoteEvent)
    (c : Nat) (hplay : p.isPlaying = true) (hnd : (p.stems.map Stem.name).Nodup)
    (hs : s ∈ p.stems) (hmode : s.mode = Mode.midi) (htl : s.midiData = some tl)
    (hsorted : tl.Pairwise (fun a b => a.t ≤ b.t))
    (hc : p.notePtrs s.name = some c)
    (hcur : ∀ (i : Nat) (h : i < tl.length), (i < c ↔ tl[i].t < L))
    (hTL : jsSub now p.startTime ≤ L)
    (hLT : L ≤ jsAdd (jsSub now p.startTime) scheduleAheadTime) :
    callsFor s.name (scheduler p now).2 =
        (tl.filter (fun e =>
          decide (L ≤ e.t ∧ e.t < jsAdd (jsSub now p.startTime) scheduleAheadTime))).map
          (fun e => (e, jsAdd p.startTime e.t)) ∧
      ∃ c', (scheduler p now).1.notePtrs s.name = some c' ∧
        ∀ (i : Nat) (h : i < tl.length),
          (i < c' ↔ tl[i].t < jsAdd (jsSub now p.startTime) scheduleAheadTime) := by
  obtain ⟨hcalls, c', hc', hcc', _, hiff⟩ :=
    scheduler_tick_calls p now s tl c hplay hnd hs hmode htl hsorted hc
  have htake : ∀ x ∈ tl.take c, x.t < L := by
    intro x hx
    obtain ⟨i, hi, hxi⟩ := List.mem_take_iff_getElem.mp hx
    have hi2 : i < c ∧ i < tl.length := by
      have := lt_min_iff.mp hi
      exact this
    rw [← hxi]
    exact (hcur i hi2.2).mp hi2.1
  have hdrop : ∀ x ∈ tl.drop c, L ≤ x.t := by
    intro x hx
    obtain ⟨i, hi, hxi⟩ := List.mem_drop_iff_getElem.mp hx
    rw [← hxi]
    have := (hcur (c + i) (by omega)).not.mp (by omega)
    exact not_lt.mp this
  have hsplit : tl.filter (fun e =>
        decide (L ≤ e.t ∧ e.t < jsAdd (jsSub now p.startTime) scheduleAheadTime)) =
      (tl.drop c).filter (fun e =>
        decide (jsSub now p.startTime ≤ e.t ∧
          e.t < jsAdd (jsSub now p.startTime) scheduleAheadTime)) := by
    conv_lhs => rw [← List.take_append_drop c tl]
    rw [List.filter_append]
    have h1 : (tl.take c).filter (fun e =>
        decide (L ≤ e.t ∧ e.t < jsAdd (jsSub now p.startTime) scheduleAheadTime)) = [] := by
      rw [List.filter_eq_nil_iff]
      intro x hx
      have := htake x hx
      simp only [decide_eq_true_eq, not_and, not_lt]
      intro h
      linarith
    rw [h1, List.nil_append]
    apply List.filter_congr
    intro x hx
    have := hdrop x hx
    have h2 : jsSub now p.startTime ≤ x.t := le_trans hTL this
    simp [this, h2]
  refine ⟨by rw [hcalls, hsplit], c', hc', ?_⟩
  intro i h
  by_cases hci : c ≤ i
  · exact hiff i h hci
  · have h1 : i < c := by omega
    have h2 := (hcur i h).mp h1
    constructor
    · intro _; linarith
    · intro _; omega

theorem chain_le_getLastD (st : ℚ) (nows : List ℚ) :
    ∀ (prev : ℚ),
      List.Chain (fun a b => jsSub a st ≤ jsSub b st ∧
        jsSub b st ≤ jsAdd (jsSub a st) scheduleAheadTime) prev nows →
      jsSub prev st ≤ jsSub (nows.getLastD prev) st := by
  induction nows with
  | nil => intro prev _; exact le_refl _
  | cons now rest ih =>
    intro prev h
    obtain ⟨h1, h2⟩ := List.chain_cons.mp h
    rw [List.getLastD_cons]
    exact le_trans h1.1 (ih now h2)

/-- Ticks that follow a tick at clock reading `prev`, each with a computed song time that
is neither before the song time of the tick before nor after its window end: together they
pass on exactly the events from the window end of the tick at `prev` up to the end of the
last window. -/
theorem ticks_calls_from_bound (s : Stem) (tl : List NoteEvent) (st : ℚ)
    (hmode : s.mode = Mode.midi) (htl : s.midiData = some tl)
    (hsorted : tl.Pairwise (fun a b => a.t ≤ b.t)) (nows : List ℚ) :
    ∀ (p : Player) (prev : ℚ) (c : Nat), p.startTime = st → p.isPlaying = true →
      (p.stems.map Stem.name).Nodup → s ∈ p.stems → p.notePtrs s.name = some c →
      (∀ (i : Nat) (h : i < tl.length),
        (i < c ↔ tl[i].t < jsAdd (jsSub prev st) scheduleAheadTime)) →
      List.Chain (fun a b => jsSub a st ≤ jsSub b st ∧
        jsSub b st ≤ jsAdd (jsSub a st) scheduleAheadTime) prev nows →
      callsFor s.name (ticksEffects p nows) =
        (tl.filter (fun e => decide (jsAdd (jsSub prev st) scheduleAheadTime ≤ e.t ∧
          e.t < jsAdd (jsSub (nows.getLastD prev) st) scheduleAheadTime))).map
          (fun e => (e, jsAdd st e.t)) := by
  induction nows with
  | nil =>
    intro p prev c _ _ _ _ _ _ _
    have hnil : tl.filter (fun e => decide (jsAdd (jsSub prev st) scheduleAheadTime ≤ e.t ∧
        e.t < jsAdd (jsSub prev st) scheduleAheadTime)) = [] := by
      rw [List.filter_eq_nil_iff]
      intro x _
      simp only [decide_eq_true_eq, not_and, not_lt]
      exact fun h => h
    simp only [ticksEffects, List.getLastD_nil, hnil, List.map_nil]
    rfl
  | cons now rest ih =>
    intro p prev c hst hplay hnd hs hc hcur hchain
    subst hst
    obtain ⟨⟨h1, h2⟩, hrest⟩ := List.chain_cons.mp hchain
    obtain ⟨hcalls, c', hc', hcur'⟩ := scheduler_tick_from_bound p now
      (jsAdd (jsSub prev p.startTime) scheduleAheadTime) s tl c hplay hnd hs hmode htl hsorted
      hc hcur h2 (jsAdd_mono_left _ _ _ h1)
    have ih2 := ih (scheduler p now).1 now c' (scheduler_startTime p now)
      (by rw [scheduler_isPlaying]; exact hplay)
      (by rw [scheduler_stems]; exact hnd)
      (by rw [scheduler_stems]; exact hs) hc' hcur' hrest
    have hlast := chain_le_getLastD p.startTime rest now hrest
    simp only [ticksEffects, callsFor_append, List.getLastD_cons]
    rw [hcalls, ih2, ← List.map_append,
      filter_window_append tl hsorted _ _ _ (jsAdd_mono_left _ _ _ h1)
        (jsAdd_mono_left _ _ _ hlast)]

/-- C13 as stated fails: with the clock origin `1 + 2^-50`, cursor 0 and the only event of
the timeline at the timestamp `9.1`, the ticks at the clock readings `10 + 2^-49` and
`10.1 + 2^-49` are less than 0.1 s apart and the event lies between the first song time
and the last song time plus 0.1 (as real numbers), yet neither tick passes it to
`scheduleEvent`: the first tick computes the song time 9 and the window end `9.1`, which
the event does not lie before; the second computes a song time one unit in the last place
above `9.1`, takes the event for late and moves the cursor past it. -/
theorem on_time_ticks_lose_event :
    callsFor "lead" (ticksEffects lostNotePlayer [10 + 1 / 2 ^ 49, fl 10.1 + 1 / 2 ^ 49]) = [] ∧
      (ticks lostNotePlayer [10 + 1 / 2 ^ 49, fl 10.1 + 1 / 2 ^ 49]).notePtrs "lead" = some 1 ∧
      lostNotePlayer.stems.map Stem.midiData = [some [⟨fl 9.1, EventType.on, 60, 100⟩]] ∧
      ((10 : ℚ) + 1 / 2 ^ 49 ≤ fl 10.1 + 1 / 2 ^ 49 ∧
        (fl 10.1 + 1 / 2 ^ 49) - (10 + 1 / 2 ^ 49) ≤ 0.1) ∧
      ((10 : ℚ) + 1 / 2 ^ 49 - lostNotePlayer.startTime ≤ fl 9.1 ∧
        fl 9.1 < fl 10.1 + 1 / 2 ^ 49 - lostNotePlayer.startTime + 0.1) := by
  decide!

/-- C13 amended: for a stem in synthesized mode with a timeline sorted by timestamp and
cursor 0, as `play()` leaves it before its first tick, and scheduler ticks whose song times
`T_k = now_k - startTime` and window ends `W_k = T_k + 0.1`, both as the ticks compute them
in binary64 arithmetic, satisfy `T_k ≤ T_(k+1) ≤ W_k` (no tick starts after the window of
the tick before it has ended), the `scheduleEvent` calls of all the ticks together, in
order, are exactly the events of the timeline with `T_0 ≤ t < W_n`, each entry of the
timeline once: no event in that range is missed and none is passed on twice. -/
theorem ticks_dispatch_each_event_once (p : Player) (s : Stem) (tl : List NoteEvent)
    (now0 : ℚ) (nows : List ℚ)
    (hplay : p.isPlaying = true) (hnd : (p.stems.map Stem.name).Nodup) (hs : s ∈ p.stems)
    (hmode : s.mode = Mode.midi) (htl : s.midiData = some tl)
    (hsorted : tl.Pairwise (fun a b => a.t ≤ b.t))
    (hc : p.notePtrs s.name = some 0)
    (hchain : List.Chain (fun a b => jsSub a p.startTime ≤ jsSub b p.startTime ∧
      jsSub b p.startTime ≤ jsAdd (jsSub a p.startTime) scheduleAheadTime) now0 nows) :
    callsFor s.name (ticksEffects p (now0 :: nows)) =
        (tl.filter (fun e => decide (jsSub now0 p.startTime ≤ e.t ∧
          e.t < jsAdd (jsSub (nows.getLastD now0) p.startTime) scheduleAheadTime))).map
          (fun e => (e, jsAdd p.startTime e.t)) ∧
      List.Sublist ((callsFor s.name (ticksEffects p (now0 :: nows))).map Prod.fst) tl := by
  obtain ⟨hcalls, c', hc', _, _, hcur'⟩ :=
    scheduler_tick_calls p now0 s tl 0 hplay hnd hs hmode htl hsorted hc
  have hrest := ticks_calls_from_bound s tl p.startTime hmode htl hsorted nows
    (scheduler p now0).1 now0 c' (scheduler_startTime p now0)
    (by rw [scheduler_isPlaying]; exact hplay)
    (by rw [scheduler_stems]; exact hnd)
    (by rw [scheduler_stems]; exact hs) hc'
    (fun i h => hcur' i h (Nat.zero_le _)) hchain
  have hlast := chain_le_getLastD p.startTime nows now0 hchain
  have heq : callsFor s.name (ticksEffects p (now0 :: nows)) =
      (tl.filter (fun e => decide (jsSub now0 p.startTime ≤ e.t ∧
        e.t < jsAdd (jsSub (nows.getLastD now0) p.startTime) scheduleAheadTime))).map
        (fun e => (e, jsAdd p.startTime e.t)) := by
    simp only [ticksEffects, callsFor_append]
    rw [hcalls, hrest, List.drop_zero, ← List.map_append,
      filter_window_append tl hsorted _ _ _ (songTime_le_windowEnd now0 p.startTime)
        (jsAdd_mono_left _ _ _ hlast)]
  refine ⟨heq, ?_⟩
  rw [heq, List.map_map]
  have : (Prod.fst ∘ fun (e : NoteEvent) => (e, jsAdd p.startTime e.t)) = id := rfl
  rw [this, List.map_id]
  exact List.filter_sublist _

theorem ticks_dispatch_each_event_once_witness :
    callsFor "lead" ((play stoppedPlayer 0 false).2 ++
        ticksEffects (play stoppedPlayer 0 false).1 [fl 0.1, fl 0.2, fl 0.3, fl 0.35]) =
      [(⟨fl 0.05, EventType.on, 60, 100⟩, fl 0.05),
        (⟨fl 0.40, EventType.off, 60, 0⟩, fl 0.40)] := by
  have h := (ticks_dispatch_each_event_once startedPlayer _ scenarioTimeline 0
    [fl 0.1, fl 0.2, fl 0.3, fl 0.35]
    rfl (by simp [startedPlayer, stoppedPlayer]) (List.mem_singleton.mpr rfl) rfl rfl
    (by decide!) rfl
    (by
      refine List.Chain.cons ?_ (List.Chain.cons ?_ (List.Chain.cons ?_
        (List.Chain.cons ?_ List.Chain.nil))) <;> decide!)).1
  refine Eq.trans ?_ (h.trans ?_)
  · decide!
  · decide!

end XMLX
